import Mathlib

/-!
Verification development for the compiler core of the scratch-vm fork:
the typed intermediate representation (`src/compiler/intermediate.js`),
the IR type analyzer / optimizer (latest revision of `iroptimizer.js`),
and the code generator (`src/compiler/jsgen.js`).

JavaScript values are shallowly embedded: numbers as an inductive capturing
NaN, the two infinities, negative zero and finite rationals (IEEE doubles
used by the program are all small decimal values, represented exactly);
the type lattice as `Nat` bitsets.
-/

namespace ScratchVM

/-- Exact decimal number: the value `m / 10 ^ e`. The doubles the compiler
manipulates in the claims are small decimals, all representable exactly. -/
structure Dec where
  m : Int
  e : Nat
deriving DecidableEq

/-- Strips factors of ten so the exponent is minimal (the canonical form a
JavaScript double prints as). -/
def stripZeros : Int → Nat → Int × Nat
  | m, 0 => (m, 0)
  | m, e + 1 => if m % 10 = 0 then stripZeros (m / 10) e else (m, e + 1)

/-- Builds a normalized decimal. -/
def Dec.mk' (m : Int) (e : Nat) : Dec :=
  ⟨(stripZeros m e).1, (stripZeros m e).2⟩

/-- Value comparison of two decimals by cross multiplication. -/
def Dec.blt (a b : Dec) : Bool :=
  a.m * (10 : Int) ^ b.e < b.m * (10 : Int) ^ a.e

/-- Model of a JavaScript number: NaN, the infinities, negative zero, or a
finite value (`finite ⟨0, 0⟩` is positive zero; finite values are kept in
normalized form so value equality is structural). -/
inductive JSNum where
  | nan
  | posInf
  | negInf
  | negZero
  | finite (d : Dec)
deriving DecidableEq

/-- Decimal projection of a finite JavaScript number; `-0` projects to `0`.
Only meaningful on `negZero` and `finite`. -/
def JSNum.dval : JSNum → Dec
  | .finite d => d
  | _ => ⟨0, 0⟩

/-- JavaScript `Number.isNaN`. -/
def JSNum.isNaN : JSNum → Bool
  | .nan => true
  | _ => false

/-- JavaScript `<` on numbers: false whenever an operand is NaN, and `-0`
compares equal to `0`. -/
def JSNum.lt : JSNum → JSNum → Bool
  | .nan, _ => false
  | _, .nan => false
  | .negInf, .negInf => false
  | .negInf, _ => true
  | _, .negInf => false
  | .posInf, _ => false
  | _, .posInf => true
  | a, b => Dec.blt a.dval b.dval

/-- JavaScript truthiness of a number: NaN, `0` and `-0` are falsy. -/
def JSNum.truthy : JSNum → Bool
  | .nan => false
  | .negZero => false
  | .finite d => decide (d.m ≠ 0)
  | _ => true

/-- JavaScript `=== 0` on a number: true exactly for `0` and `-0`
(NaN is not strictly equal to anything). -/
def JSNum.strictEqZero : JSNum → Bool
  | .negZero => true
  | .finite d => decide (d.m = 0)
  | _ => false

/-- Model of a JavaScript value as stored in a CONSTANT input node. -/
inductive JSValue where
  | num (n : JSNum)
  | str (s : String)
  | bool (b : Bool)
deriving DecidableEq

/-- Value of a decimal digit character. -/
def digitVal (c : Char) : Nat := c.toNat - 48

/-- Numeric value of a list of decimal digit characters. -/
def digitsVal (cs : List Char) : Nat :=
  cs.foldl (fun acc c => acc * 10 + digitVal c) 0

/-- Split a character list at its (single) decimal point; `none` when more
than one point occurs. -/
def splitDot : List Char → Option (List Char × List Char)
  | [] => some ([], [])
  | '.' :: rest => if rest.contains '.' then none else some ([], rest)
  | c :: rest =>
    match splitDot rest with
    | some (a, b) => some (c :: a, b)
    | none => none

/-- Whitespace for the purposes of JavaScript string trimming (the
characters occurring in the development). -/
def isJsSpace (c : Char) : Bool :=
  c = ' ' || c = '\t' || c = '\n' || c = '\r'

/-- JavaScript string trimming as performed by `ToNumber`. -/
def jsTrim (s : String) : String :=
  String.mk (((s.toList.dropWhile isJsSpace).reverse.dropWhile isJsSpace).reverse)

/-- Model of the host JavaScript `ToNumber` coercion on strings (the unary
`+` the compiler applies to constants), covering the forms the compiler
meets: trimmed decimal literals with an optional sign and decimal point,
`Infinity`, and the empty string (which coerces to `0`); anything else
coerces to NaN. -/
def jsStringToNumber (s : String) : JSNum :=
  let t := jsTrim s
  if t = "" then .finite ⟨0, 0⟩
  else
    let (neg, cs) :=
      match t.toList with
      | '-' :: rest => (true, rest)
      | '+' :: rest => (false, rest)
      | cs => (false, cs)
    if cs = "Infinity".toList then (if neg then .negInf else .posInf)
    else
      match splitDot cs with
      | none => .nan
      | some (ip, fp) =>
        if ip.length + fp.length = 0 then .nan
        else if ip.all Char.isDigit && fp.all Char.isDigit then
          let m : Int := (digitsVal ip : Int) * (10 : Int) ^ fp.length + (digitsVal fp : Int)
          if m = 0 then (if neg then .negZero else .finite ⟨0, 0⟩)
          else .finite (Dec.mk' (if neg then -m else m) fp.length)
        else .nan

/-- Model of the host JavaScript `ToNumber` coercion (unary `+`) on values. -/
def jsToNumber : JSValue → JSNum
  | .num n => n
  | .bool b => .finite ⟨if b then 1 else 0, 0⟩
  | .str s => jsStringToNumber s

/-- Decimal string of a nonnegative normalized decimal; models JavaScript
`Number.prototype.toString` on such values (the normalized form has no
trailing fraction zeroes, matching the shortest form JavaScript prints). -/
def decRepr (d : Dec) : String :=
  let n := d.m.toNat
  if d.e = 0 then toString n
  else
    let digits := toString n
    let digits := (String.mk (List.replicate (d.e + 1 - digits.length) '0')) ++ digits
    let ipart := digits.toList.take (digits.length - d.e)
    let fpart := digits.toList.drop (digits.length - d.e)
    String.mk ipart ++ "." ++ String.mk fpart

/-- Model of JavaScript `Number.prototype.toString`: note `(-0).toString()`
is `"0"`. -/
def jsNumToString : JSNum → String
  | .nan => "NaN"
  | .posInf => "Infinity"
  | .negInf => "-Infinity"
  | .negZero => "0"
  | .finite d => if d.m < 0 then "-" ++ decRepr ⟨-d.m, d.e⟩ else decRepr d

/-- Model of JavaScript string coercion of a value (`'' + v` /
`v.toString()` for the value kinds a constant can hold). -/
def jsValueToString : JSValue → String
  | .str s => s
  | .num n => jsNumToString n
  | .bool b => if b then "true" else "false"

namespace InputType

/-- Modelled from the spec: the latest `enums.js` defining the `InputType`
bitset is not among the provided sources. Bit positions are assigned to the
nine numeric atoms plus BOOLEAN, STRING_NUM and STRING of spec section 3;
the group values below are the spec's unions of atoms. -/
def NUMBER_POS_INT : Nat := 1

/-- Positive fractional atom. -/
def NUMBER_POS_FRACT : Nat := 2

/-- Positive infinity atom. -/
def NUMBER_POS_INF : Nat := 4

/-- Negative integer atom. -/
def NUMBER_NEG_INT : Nat := 8

/-- Negative fractional atom. -/
def NUMBER_NEG_FRACT : Nat := 16

/-- Negative infinity atom. -/
def NUMBER_NEG_INF : Nat := 32

/-- Positive-zero atom. -/
def NUMBER_ZERO : Nat := 64

/-- Negative-zero atom. -/
def NUMBER_NEG_ZERO : Nat := 128

/-- NaN atom. -/
def NUMBER_NAN : Nat := 256

/-- Boolean kind. -/
def BOOLEAN : Nat := 512

/-- Kind of strings that parse as numbers. -/
def STRING_NUM : Nat := 1024

/-- String kind. -/
def STRING : Nat := 2048

/-- Group POS = POS_INT, POS_FRACT and POS_INF. -/
def NUMBER_POS : Nat := NUMBER_POS_INT ||| NUMBER_POS_FRACT ||| NUMBER_POS_INF

/-- Group NEG = NEG_INT, NEG_FRACT and NEG_INF. -/
def NUMBER_NEG : Nat := NUMBER_NEG_INT ||| NUMBER_NEG_FRACT ||| NUMBER_NEG_INF

/-- Finite positive numbers. -/
def NUMBER_POS_REAL : Nat := NUMBER_POS_INT ||| NUMBER_POS_FRACT

/-- Finite negative numbers. -/
def NUMBER_NEG_REAL : Nat := NUMBER_NEG_INT ||| NUMBER_NEG_FRACT

/-- All finite non-NaN numbers. -/
def NUMBER_REAL : Nat :=
  NUMBER_POS_REAL ||| NUMBER_NEG_REAL ||| NUMBER_ZERO ||| NUMBER_NEG_ZERO

/-- The two infinities. -/
def NUMBER_INF : Nat := NUMBER_POS_INF ||| NUMBER_NEG_INF

/-- Both zeroes. -/
def NUMBER_ANY_ZERO : Nat := NUMBER_ZERO ||| NUMBER_NEG_ZERO

/-- Both fractional atoms. -/
def NUMBER_FRACT : Nat := NUMBER_POS_FRACT ||| NUMBER_NEG_FRACT

/-- All number atoms except NaN. -/
def NUMBER : Nat :=
  NUMBER_POS ||| NUMBER_NEG ||| NUMBER_ZERO ||| NUMBER_NEG_ZERO

/-- All number atoms including NaN. -/
def NUMBER_OR_NAN : Nat := NUMBER ||| NUMBER_NAN

/-- Top of the lattice: every bit set. -/
def ANY : Nat :=
  NUMBER_OR_NAN ||| BOOLEAN ||| STRING_NUM ||| STRING

end InputType

/-- Embedding of `IntermediateInput.getNumberInputType`
(`src/compiler/intermediate.js`): the if-chain over `===`, `<`, `>` and
`Number.isNaN` exactly as in the source. -/
def getNumberInputType (number : JSNum) : Nat :=
  if number = .posInf then InputType.NUMBER_POS_INF
  else if number = .negInf then InputType.NUMBER_NEG_INF
  else if number.lt (.finite ⟨0, 0⟩) then InputType.NUMBER_NEG
  else if (JSNum.finite ⟨0, 0⟩).lt number then InputType.NUMBER_POS
  else if number.isNaN then InputType.NUMBER_NAN
  else InputType.NUMBER_ZERO

/-- Embedding of `IntermediateInput` (`src/compiler/intermediate.js`): an
opcode together with its `type` bitset and its opcode-specific inputs map.
Opcodes the analyzer and rewriter treat generically are collected under
`other`, whose input-map entries that are themselves inputs form the
children list. -/
inductive IInput where
  | constant (type : Nat) (value : JSValue)
  | varGet (type : Nat) (varName : String)
  | castNumber (type : Nat) (target : IInput)
  | castNumberOrNan (type : Nat) (target : IInput)
  | castBoolean (type : Nat) (target : IInput)
  | castString (type : Nat) (target : IInput)
  | opAdd (type : Nat) (left right : IInput)
  | opSubtract (type : Nat) (left right : IInput)
  | opMultiply (type : Nat) (left right : IInput)
  | opDivide (type : Nat) (left right : IInput)
  | other (type : Nat) (children : List IInput)

/-- The `type` field of an input node. -/
def IInput.type : IInput → Nat
  | .constant t _ => t
  | .varGet t _ => t
  | .castNumber t _ => t
  | .castNumberOrNan t _ => t
  | .castBoolean t _ => t
  | .castString t _ => t
  | .opAdd t _ _ => t
  | .opSubtract t _ _ => t
  | .opMultiply t _ _ => t
  | .opDivide t _ _ => t
  | .other t _ => t

/-- Embedding of `IntermediateInput.isAlwaysType`:
`(this.type & type) === this.type`. -/
def IInput.isAlwaysType (i : IInput) (t : Nat) : Bool :=
  (i.type &&& t) = i.type

/-- Embedding of `IntermediateInput.isSometimesType`:
`(this.type & type) !== 0`. -/
def IInput.isSometimesType (i : IInput) (t : Nat) : Bool :=
  (i.type &&& t) ≠ 0

/-- Modelled from the spec: `Cast.toBoolean` lives in `src/util/cast.js`,
which is not among the provided sources; spec section 4.2 defines the cast
as host truthiness with the strings `""`, `"0"` and `"false"` mapping to
false. -/
def Cast.toBoolean : JSValue → Bool
  | .bool b => b
  | .str s => !(s = "" || s = "0" || s = "false")
  | .num n => n.truthy

/-- Embedding of `IntermediateInput.toType`
(`src/compiler/intermediate.js`): unsupported targets throw; an input
already always of the target type is returned unchanged; a CONSTANT is cast
at compile time (the `CAST_NUMBER` and `CAST_NUMBER_OR_NAN` opcodes share
one case in the source switch, converting NaN to 0 and preserving `-0`);
otherwise a new cast node wraps the input. -/
def IInput.toType (i : IInput) (targetType : Nat) : Except String IInput :=
  if targetType ≠ InputType.BOOLEAN ∧ targetType ≠ InputType.NUMBER ∧
      targetType ≠ InputType.NUMBER_OR_NAN ∧ targetType ≠ InputType.STRING then
    .error "Cannot cast to type"
  else if i.isAlwaysType targetType then .ok i
  else
    match i with
    | .constant _ v =>
      if targetType = InputType.BOOLEAN then
        .ok (.constant InputType.BOOLEAN (.bool (Cast.toBoolean v)))
      else if targetType = InputType.STRING then
        .ok (.constant InputType.STRING (.str (jsValueToString v)))
      else
        let numberValue := jsToNumber v
        let value' : JSNum :=
          if numberValue.truthy then numberValue
          else if numberValue = .negZero then .negZero
          else .finite ⟨0, 0⟩
        .ok (.constant InputType.NUMBER (.num value'))
    | _ =>
      if targetType = InputType.BOOLEAN then .ok (.castBoolean targetType i)
      else if targetType = InputType.NUMBER then .ok (.castNumber targetType i)
      else if targetType = InputType.NUMBER_OR_NAN then .ok (.castNumberOrNan targetType i)
      else .ok (.castString targetType i)

/-- Embedding of `TypeState.variables`: a JavaScript object mapping variable
names to lattice elements, as an association list with unique keys kept in
insertion order. -/
abbrev TypeState := List (String × Nat)

/-- Object property lookup. -/
def tsLookup : TypeState → String → Option Nat
  | [], _ => none
  | e :: rest, k => if e.1 = k then some e.2 else tsLookup rest k

/-- Object property assignment: updates the first matching key in place,
otherwise appends (JavaScript insertion order). -/
def tsSet : TypeState → String → Nat → TypeState
  | [], k, v => [(k, v)]
  | e :: rest, k, v =>
    if e.1 = k then (k, v) :: rest else e :: tsSet rest k v

/-- Embedding of `TypeState.getVariableType`:
`this.variables[variable.name] ?? InputType.ANY`. -/
def getVariableType (s : TypeState) (name : String) : Nat :=
  (tsLookup s name).getD InputType.ANY

/-- Embedding of `TypeState.setVariableType`: no-op returning false when the
looked-up type is already equal, else store and return true. -/
def setVariableType (s : TypeState) (name : String) (ty : Nat) : TypeState × Bool :=
  if getVariableType s name = ty then (s, false)
  else (tsSet s name ty, true)

/-- Embedding of `TypeState.clear` (latest revision): empties the mapping and
reports whether any entry was not ANY. -/
def tsClear (s : TypeState) : TypeState × Bool :=
  ([], s.any (fun e => e.2 ≠ InputType.ANY))

/-- Embedding of `TypeState.or` (latest revision): first loop joins every
key of `other` into `self` (missing keys read as ANY, and the slot is always
written); second loop walks the updated own keys and promotes those that are
absent from `other` (or falsy, i.e. 0, there) to ANY; returns whether
anything changed. The per-key body of the first loop is `tsOrStep`. -/
def tsOrStep (acc : TypeState × Bool) (e : String × Nat) : TypeState × Bool :=
  let currentType := (tsLookup acc.1 e.1).getD InputType.ANY
  let newType := currentType ||| e.2
  (tsSet acc.1 e.1 newType, acc.2 || decide (currentType ≠ newType))

/-- Embedding of the body of the second loop of `TypeState.or`: own keys
absent from `other` (or falsy there) are promoted to ANY. -/
def tsOr (s other : TypeState) : TypeState × Bool :=
  let s1m := other.foldl tsOrStep (s, false)
  let s2 := s1m.1.map (fun e =>
    if (tsLookup other e.1).getD 0 = 0 ∧ e.2 ≠ InputType.ANY
    then (e.1, InputType.ANY) else e)
  let m2 := s1m.2 || s1m.1.any (fun e =>
    decide ((tsLookup other e.1).getD 0 = 0) && decide (e.2 ≠ InputType.ANY))
  (s2, m2)

/-- Embedding of `IROptimizer.analyzeInputBlock` (latest revision of the
optimizer in the sources): the switch over VAR_GET, the two numeric casts
and the four arithmetic transfer functions; every other opcode falls through
to the node's current `type`. -/
def analyzeInputBlock (inputBlock : IInput) (state : TypeState) : Nat :=
  match inputBlock with
  | .varGet _ name => getVariableType state name
  | .castNumber _ target =>
    let innerType := analyzeInputBlock target state
    if innerType &&& InputType.NUMBER ≠ 0 then innerType
    else InputType.NUMBER
  | .castNumberOrNan _ target =>
    let innerType := analyzeInputBlock target state
    if innerType &&& InputType.NUMBER_OR_NAN ≠ 0 then innerType
    else InputType.NUMBER_OR_NAN
  | .opAdd _ left right =>
    let l := analyzeInputBlock left state
    let r := analyzeInputBlock right state
    let canBeNaN :=
      (l &&& InputType.NUMBER_POS_INF ≠ 0 ∧ r &&& InputType.NUMBER_NEG_INF ≠ 0) ∨
      (l &&& InputType.NUMBER_NEG_INF ≠ 0 ∧ r &&& InputType.NUMBER_POS_INF ≠ 0)
    let canBeFract :=
      l &&& InputType.NUMBER_FRACT ≠ 0 ∨ r &&& InputType.NUMBER_FRACT ≠ 0
    let canBePos :=
      l &&& InputType.NUMBER_POS ≠ 0 ∨ r &&& InputType.NUMBER_POS ≠ 0
    let canBeNeg :=
      l &&& InputType.NUMBER_NEG ≠ 0 ∨ r &&& InputType.NUMBER_NEG ≠ 0
    let canBeZero :=
      (l &&& InputType.NUMBER_POS_REAL ≠ 0 ∧ r &&& InputType.NUMBER_NEG_REAL ≠ 0) ∨
      (l &&& InputType.NUMBER_NEG_REAL ≠ 0 ∧ r &&& InputType.NUMBER_POS_REAL ≠ 0) ∨
      (l &&& InputType.NUMBER_ZERO ≠ 0 ∧ r &&& InputType.NUMBER_ZERO ≠ 0) ∨
      (l &&& InputType.NUMBER_ZERO ≠ 0 ∧ r &&& InputType.NUMBER_NEG_ZERO ≠ 0) ∨
      (l &&& InputType.NUMBER_NEG_ZERO ≠ 0 ∧ r &&& InputType.NUMBER_ZERO ≠ 0)
    let canBeNegZero :=
      l &&& InputType.NUMBER_NEG_ZERO ≠ 0 ∧ r &&& InputType.NUMBER_NEG_ZERO ≠ 0
    (if canBeNaN then InputType.NUMBER_NAN else 0) |||
    (if canBePos then
      InputType.NUMBER_POS_INT ||| InputType.NUMBER_POS_INF |||
        (if canBeFract then InputType.NUMBER_POS_FRACT else 0)
     else 0) |||
    (if canBeNeg then
      InputType.NUMBER_NEG_INT ||| InputType.NUMBER_NEG_INF |||
        (if canBeFract then InputType.NUMBER_NEG_FRACT else 0)
     else 0) |||
    (if canBeZero then InputType.NUMBER_ZERO else 0) |||
    (if canBeNegZero then InputType.NUMBER_NEG_ZERO else 0)
  | .opSubtract _ left right =>
    let l := analyzeInputBlock left state
    let r := analyzeInputBlock right state
    let canBeNaN :=
      (l &&& InputType.NUMBER_POS_INF ≠ 0 ∧ r &&& InputType.NUMBER_POS_INF ≠ 0) ∨
      (l &&& InputType.NUMBER_NEG_INF ≠ 0 ∧ r &&& InputType.NUMBER_NEG_INF ≠ 0)
    let canBeFract :=
      l &&& InputType.NUMBER_FRACT ≠ 0 ∨ r &&& InputType.NUMBER_FRACT ≠ 0
    let canBePos :=
      l &&& InputType.NUMBER_POS ≠ 0 ∨ r &&& InputType.NUMBER_NEG ≠ 0
    let canBeNeg :=
      l &&& InputType.NUMBER_NEG ≠ 0 ∨ r &&& InputType.NUMBER_POS ≠ 0
    let canBeZero :=
      (l &&& InputType.NUMBER_POS_REAL ≠ 0 ∧ r &&& InputType.NUMBER_POS_REAL ≠ 0) ∨
      (l &&& InputType.NUMBER_NEG_REAL ≠ 0 ∧ r &&& InputType.NUMBER_NEG_REAL ≠ 0) ∨
      (l &&& InputType.NUMBER_ZERO ≠ 0 ∧ r &&& InputType.NUMBER_ZERO ≠ 0) ∨
      (l &&& InputType.NUMBER_ZERO ≠ 0 ∧ r &&& InputType.NUMBER_NEG_ZERO ≠ 0) ∨
      (l &&& InputType.NUMBER_NEG_ZERO ≠ 0 ∧ r &&& InputType.NUMBER_NEG_ZERO ≠ 0)
    let canBeNegZero :=
      l &&& InputType.NUMBER_NEG_ZERO ≠ 0 ∧ r &&& InputType.NUMBER_ZERO ≠ 0
    (if canBeNaN then InputType.NUMBER_NAN else 0) |||
    (if canBePos then
      InputType.NUMBER_POS_INT ||| InputType.NUMBER_POS_INF |||
        (if canBeFract then InputType.NUMBER_POS_FRACT else 0)
     else 0) |||
    (if canBeNeg then
      InputType.NUMBER_NEG_INT ||| InputType.NUMBER_NEG_INF |||
        (if canBeFract then InputType.NUMBER_NEG_FRACT else 0)
     else 0) |||
    (if canBeZero then InputType.NUMBER_ZERO else 0) |||
    (if canBeNegZero then InputType.NUMBER_NEG_ZERO else 0)
  | .opMultiply _ left right =>
    let l := analyzeInputBlock left state
    let r := analyzeInputBlock right state
    let canBeNaN :=
      (l &&& InputType.NUMBER_POS_INF ≠ 0 ∧ r &&& InputType.NUMBER_ANY_ZERO ≠ 0) ∨
      (l &&& InputType.NUMBER_ANY_ZERO ≠ 0 ∧ r &&& InputType.NUMBER_POS_INF ≠ 0)
    let canBeFract :=
      l &&& InputType.NUMBER_FRACT ≠ 0 ∨ r &&& InputType.NUMBER_FRACT ≠ 0
    let canBePos :=
      (l &&& InputType.NUMBER_POS ≠ 0 ∧ r &&& InputType.NUMBER_POS ≠ 0) ∨
      (l &&& InputType.NUMBER_NEG ≠ 0 ∧ r &&& InputType.NUMBER_NEG ≠ 0)
    let canBeNeg :=
      (l &&& InputType.NUMBER_POS ≠ 0 ∧ r &&& InputType.NUMBER_NEG ≠ 0) ∨
      (l &&& InputType.NUMBER_NEG ≠ 0 ∧ r &&& InputType.NUMBER_POS ≠ 0)
    let canBeZero :=
      (l &&& InputType.NUMBER_ZERO ≠ 0 ∧ r &&& InputType.NUMBER_POS_REAL ≠ 0) ∨
      (l &&& InputType.NUMBER_NEG_ZERO ≠ 0 ∧ r &&& InputType.NUMBER_NEG_REAL ≠ 0) ∨
      (l &&& InputType.NUMBER_POS_REAL ≠ 0 ∧ r &&& InputType.NUMBER_ZERO ≠ 0) ∨
      (l &&& InputType.NUMBER_NEG_REAL ≠ 0 ∧ r &&& InputType.NUMBER_NEG_ZERO ≠ 0) ∨
      (l &&& InputType.NUMBER_POS_REAL ≠ 0 ∧ r &&& InputType.NUMBER_POS_REAL ≠ 0) ∨
      (l &&& InputType.NUMBER_NEG_REAL ≠ 0 ∧ r &&& InputType.NUMBER_NEG_REAL ≠ 0)
    let canBeNegZero :=
      (l &&& InputType.NUMBER_NEG_ZERO ≠ 0 ∧ r &&& InputType.NUMBER_POS_REAL ≠ 0) ∨
      (l &&& InputType.NUMBER_ZERO ≠ 0 ∧ r &&& InputType.NUMBER_NEG_REAL ≠ 0) ∨
      (l &&& InputType.NUMBER_POS_REAL ≠ 0 ∧ r &&& InputType.NUMBER_NEG_ZERO ≠ 0) ∨
      (l &&& InputType.NUMBER_NEG_REAL ≠ 0 ∧ r &&& InputType.NUMBER_ZERO ≠ 0) ∨
      (l &&& InputType.NUMBER_NEG_REAL ≠ 0 ∧ r &&& InputType.NUMBER_POS_REAL ≠ 0) ∨
      (l &&& InputType.NUMBER_POS_REAL ≠ 0 ∧ r &&& InputType.NUMBER_NEG_REAL ≠ 0)
    (if canBeNaN then InputType.NUMBER_NAN else 0) |||
    (if canBePos then
      InputType.NUMBER_POS_INT ||| InputType.NUMBER_POS_INF |||
        (if canBeFract then InputType.NUMBER_POS_FRACT else 0)
     else 0) |||
    (if canBeNeg then
      InputType.NUMBER_NEG_INT ||| InputType.NUMBER_NEG_INF |||
        (if canBeFract then InputType.NUMBER_NEG_FRACT else 0)
     else 0) |||
    (if canBeZero then InputType.NUMBER_ZERO else 0) |||
    (if canBeNegZero then InputType.NUMBER_NEG_ZERO else 0)
  | .opDivide _ left right =>
    let l := analyzeInputBlock left state
    let r := analyzeInputBlock right state
    let canBeNaN :=
      (l &&& InputType.NUMBER_REAL ≠ 0 ∧ r &&& InputType.NUMBER_ZERO ≠ 0) ∨
      (l &&& InputType.NUMBER_INF ≠ 0 ∧ r &&& InputType.NUMBER_INF ≠ 0)
    let canBePos :=
      (l &&& InputType.NUMBER_POS ≠ 0 ∧ r &&& InputType.NUMBER_POS ≠ 0) ∨
      (l &&& InputType.NUMBER_NEG ≠ 0 ∧ r &&& InputType.NUMBER_NEG ≠ 0)
    let canBeNeg :=
      (l &&& InputType.NUMBER_POS ≠ 0 ∧ r &&& InputType.NUMBER_NEG ≠ 0) ∨
      (l &&& InputType.NUMBER_NEG ≠ 0 ∧ r &&& InputType.NUMBER_POS ≠ 0)
    let canBeZero :=
      (l &&& InputType.NUMBER_ZERO ≠ 0 ∧ r &&& InputType.NUMBER_POS ≠ 0) ∨
      (l &&& InputType.NUMBER_NEG_ZERO ≠ 0 ∧ r &&& InputType.NUMBER_NEG ≠ 0) ∨
      (l &&& InputType.NUMBER_POS_REAL ≠ 0 ∧ r &&& InputType.NUMBER_POS_REAL ≠ 0) ∨
      (l &&& InputType.NUMBER_NEG_REAL ≠ 0 ∧ r &&& InputType.NUMBER_NEG_REAL ≠ 0)
    let canBeNegZero :=
      (l &&& InputType.NUMBER_NEG_ZERO ≠ 0 ∧ r &&& InputType.NUMBER_POS ≠ 0) ∨
      (l &&& InputType.NUMBER_ZERO ≠ 0 ∧ r &&& InputType.NUMBER_NEG ≠ 0) ∨
      (l &&& InputType.NUMBER_NEG_REAL ≠ 0 ∧ r &&& InputType.NUMBER_POS_REAL ≠ 0) ∨
      (l &&& InputType.NUMBER_POS_REAL ≠ 0 ∧ r &&& InputType.NUMBER_NEG_REAL ≠ 0)
    (if canBeNaN then InputType.NUMBER_NAN else 0) |||
    (if canBePos then InputType.NUMBER_POS else 0) |||
    (if l &&& InputType.NUMBER_NEG_INF ≠ 0 ∧ r &&& InputType.NUMBER_ZERO ≠ 0
     then InputType.NUMBER_NEG_INF else 0) |||
    (if l &&& InputType.NUMBER_POS_INF ≠ 0 ∧ r &&& InputType.NUMBER_NEG_ZERO ≠ 0
     then InputType.NUMBER_NEG_INF else 0) |||
    (if l &&& InputType.NUMBER_POS_INF ≠ 0 ∧ r &&& InputType.NUMBER_ZERO ≠ 0
     then InputType.NUMBER_POS_INF else 0) |||
    (if l &&& InputType.NUMBER_NEG_INF ≠ 0 ∧ r &&& InputType.NUMBER_NEG_ZERO ≠ 0
     then InputType.NUMBER_POS_INF else 0) |||
    (if canBeNeg then InputType.NUMBER_NEG else 0) |||
    (if canBeZero then InputType.NUMBER_ZERO else 0) |||
    (if canBeNegZero then InputType.NUMBER_NEG_ZERO else 0)
  | i => i.type

/-- Sets the `type` field of an input node (the rewriter's
`input.type = this.analyzeInputBlock(input, state)` assignment). -/
def IInput.setType : IInput → Nat → IInput
  | .constant _ v, t => .constant t v
  | .varGet _ n, t => .varGet t n
  | .castNumber _ x, t => .castNumber t x
  | .castNumberOrNan _ x, t => .castNumberOrNan t x
  | .castBoolean _ x, t => .castBoolean t x
  | .castString _ x, t => .castString t x
  | .opAdd _ l r, t => .opAdd t l r
  | .opSubtract _ l r, t => .opSubtract t l r
  | .opMultiply _ l r, t => .opMultiply t l r
  | .opDivide _ l r, t => .opDivide t l r
  | .other _ cs, t => .other t cs

/-- Embedding of `IROptimizer.optimizeInput` (latest revision): first every
input-valued entry of the inputs map is optimized recursively; then a
CAST_NUMBER or CAST_NUMBER_OR_NAN node whose (optimized) target analyzes to
a subset of the cast target type is replaced by that target; every other
node gets its `type` field set to its analyzed type. -/
def optimizeInput (input : IInput) (state : TypeState) : IInput :=
  match input with
  | .castNumber ty target =>
    let t' := optimizeInput target state
    let targetType := analyzeInputBlock t' state
    if (targetType &&& InputType.NUMBER) = targetType then t'
    else .castNumber ty t'
  | .castNumberOrNan ty target =>
    let t' := optimizeInput target state
    let targetType := analyzeInputBlock t' state
    if (targetType &&& InputType.NUMBER_OR_NAN) = targetType then t'
    else .castNumberOrNan ty t'
  | .castBoolean ty target =>
    let i1 := IInput.castBoolean ty (optimizeInput target state)
    i1.setType (analyzeInputBlock i1 state)
  | .castString ty target =>
    let i1 := IInput.castString ty (optimizeInput target state)
    i1.setType (analyzeInputBlock i1 state)
  | .opAdd ty l r =>
    let i1 := IInput.opAdd ty (optimizeInput l state) (optimizeInput r state)
    i1.setType (analyzeInputBlock i1 state)
  | .opSubtract ty l r =>
    let i1 := IInput.opSubtract ty (optimizeInput l state) (optimizeInput r state)
    i1.setType (analyzeInputBlock i1 state)
  | .opMultiply ty l r =>
    let i1 := IInput.opMultiply ty (optimizeInput l state) (optimizeInput r state)
    i1.setType (analyzeInputBlock i1 state)
  | .opDivide ty l r =>
    let i1 := IInput.opDivide ty (optimizeInput l state) (optimizeInput r state)
    i1.setType (analyzeInputBlock i1 state)
  | .other ty children =>
    let i1 := IInput.other ty (children.attach.map (fun c => optimizeInput c.1 state))
    i1.setType (analyzeInputBlock i1 state)
  | .constant ty v =>
    let i1 := IInput.constant ty v
    i1.setType (analyzeInputBlock i1 state)
  | .varGet ty n =>
    let i1 := IInput.varGet ty n
    i1.setType (analyzeInputBlock i1 state)
termination_by sizeOf input
decreasing_by
  all_goals simp_wf
  all_goals try omega
  all_goals (have h := List.sizeOf_lt_of_mem c.2; omega)

mutual

/-- Opcode-specific inputs of an `IntermediateStackBlock`. Opcodes the
analyzer dispatches on get their own constructors; blocks the analyzer
falls through on (and the code-generator blocks the claims mention) are the
remaining constructors. -/
inductive StackOpData where
  | varSet (varName : String) (value : IInput)
  | controlWhile (body : Stack)
  | controlFor (body : Stack)
  | controlRepeat (body : Stack)
  | controlIfElse (whenTrue whenFalse : Stack)
  | procedureCall (code variant : String) (args : List IInput)
  | addonCall (code blockId : String) (args : List (String × IInput))
  | compatCall (opcode : String) (inputs : List (String × IInput))
      (fields : List (String × String))
  | broadcastAndWait (broadcast : IInput)
  | stopAll
  | stopScript
  | otherBlock

/-- Embedding of `IntermediateStackBlock`: opcode-specific inputs, the
yields flag, and the `entryState` and `exitState` annotations the analyzer
writes. -/
inductive StackBlock where
  | mk (op : StackOpData) (yields : Bool)
      (entryState exitState : Option TypeState)

/-- Embedding of `IntermediateStack`: an ordered block list. -/
inductive Stack where
  | mk (blocks : List StackBlock)

end

/-- Blocks of a stack. -/
def Stack.blocks : Stack → List StackBlock
  | .mk bs => bs

/-- Opcode data of a block. -/
def StackBlock.op : StackBlock → StackOpData
  | .mk o _ _ _ => o

/-- Yields flag of a block. -/
def StackBlock.yields : StackBlock → Bool
  | .mk _ y _ _ => y

/-- Entry-state annotation of a block. -/
def StackBlock.entryState : StackBlock → Option TypeState
  | .mk _ _ e _ => e

/-- Exit-state annotation of a block. -/
def StackBlock.exitState : StackBlock → Option TypeState
  | .mk _ _ _ x => x

/-- Writes the `entryState` annotation. -/
def StackBlock.withEntry : StackBlock → Option TypeState → StackBlock
  | .mk o y _ x, e => .mk o y e x

/-- Writes the `exitState` annotation. -/
def StackBlock.withExit : StackBlock → Option TypeState → StackBlock
  | .mk o y e _, x => .mk o y e x

/-- Replaces the body stack of a loop block (the in-place mutation of the
blocks inside `inputs.do` during analysis). -/
def StackBlock.withBody : StackBlock → Stack → StackBlock
  | .mk (.controlWhile _) y e x, s => .mk (.controlWhile s) y e x
  | .mk (.controlFor _) y e x, s => .mk (.controlFor s) y e x
  | .mk (.controlRepeat _) y e x, s => .mk (.controlRepeat s) y e x
  | b, _ => b

mutual

/-- Embedding of `IROptimizer.analyzeStackBlock` (latest revision):
VAR_SET runs the transfer of its value; the three loop opcodes delegate to
`analyzeLoopedStack`; CONTROL_IF_ELSE clones the state, analyzes the true
branch on the clone and the false branch on the original, and then evaluates
`modified ||= state.or(trueState)` — the JavaScript `||=` short-circuits,
so the join is skipped when the false branch already changed the state;
PROCEDURE_CALL clears; every other opcode returns false. `none` means the
fuel ran out, never a behavior of the source. -/
def analyzeStackBlock : StackBlock → TypeState → Nat →
    Option (StackBlock × TypeState × Bool)
  | _, _, 0 => none
  | b, state, fuel+1 =>
    match b with
    | .mk op yields es xs =>
      match op with
      | .varSet name value =>
        let sc := setVariableType state name (analyzeInputBlock value state)
        some (b, sc.1, sc.2)
      | .controlWhile body => analyzeLoopedStack body state b fuel
      | .controlFor body => analyzeLoopedStack body state b fuel
      | .controlRepeat body => analyzeLoopedStack body state b fuel
      | .controlIfElse wt wf => do
        let (wt', trueState, _) ← analyzeStack wt state fuel
        let (wf', s1, m1) ← analyzeStack wf state fuel
        let b1 := StackBlock.mk (.controlIfElse wt' wf') yields es xs
        if m1 then some (b1, s1, true)
        else
          let s2 := tsOr s1 trueState
          some (b1, s2.1, s2.2)
      | .procedureCall _ _ _ =>
        let sc := tsClear state
        some (b, sc.1, sc.2)
      | _ => some (b, state, false)

/-- Embedding of `IROptimizer.analyzeLoopedStack` (latest revision): a
yielding loop clears the state, records the cleared state as both the entry
and exit annotation, and analyzes the body once; a non-yielding loop runs
the do-while fixed-point `analyzeLoop` and then records the entry
annotation. Its returned flag is the last `or` result, which is false by
the loop's exit condition. -/
def analyzeLoopedStack : Stack → TypeState → StackBlock → Nat →
    Option (StackBlock × TypeState × Bool)
  | _, _, _, 0 => none
  | stack, state, b, fuel+1 =>
    if b.yields then
      let sc := tsClear state
      let b1 := (b.withEntry (some sc.1)).withExit (some sc.1)
      do
        let (stack', s2, m2) ← analyzeStack stack sc.1 fuel
        some (b1.withBody stack', s2, m2 || sc.2)
    else do
      let (stack', state', lastOr) ← analyzeLoop stack state fuel
      let b1 := (b.withBody stack').withEntry (some state')
      some (b1, state', lastOr)

/-- Embedding of the do-while in `analyzeLoopedStack`: clone the state,
analyze the body on the clone, join the clone back with `state.or`, and
repeat while `or` reports a change (`modified = keepLooping = state.or(...)`
in the source overwrites `modified` each round, so the returned flag is the
final, false, `or` result). -/
def analyzeLoop : Stack → TypeState → Nat →
    Option (Stack × TypeState × Bool)
  | _, _, 0 => none
  | stack, state, fuel+1 => do
    let (stack', newState, _) ← analyzeStack stack state fuel
    let sk := tsOr state newState
    if sk.2 then analyzeLoop stack' sk.1 fuel
    else some (stack', sk.1, sk.2)

/-- Embedding of `IROptimizer.analyzeStack` (latest revision): the per-block
loop threading the state. -/
def analyzeStack : Stack → TypeState → Nat →
    Option (Stack × TypeState × Bool)
  | _, _, 0 => none
  | .mk blocks, state, fuel+1 => do
    let (bs, s, m) ← analyzeBlocks blocks state fuel
    some (.mk bs, s, m)

/-- The body of `analyzeStack`'s for-loop over the remaining blocks. -/
def analyzeBlocks : List StackBlock → TypeState → Nat →
    Option (List StackBlock × TypeState × Bool)
  | _, _, 0 => none
  | [], state, _+1 => some ([], state, false)
  | blk :: rest, state, fuel+1 => do
    let (b', s', changed) ← visitBlock blk state fuel
    let (bs, s2, m2) ← analyzeBlocks rest s' fuel
    some (b' :: bs, s2, changed || m2)

/-- One iteration of `analyzeStack`'s loop on a single block: run
`analyzeStackBlock`, then `stateChanged ||= state.clear()` for a yielding
block (the `||=` short-circuits: the clear is skipped when the block already
changed the state), and record or join the exit-state annotation only when
`stateChanged` is true. -/
def visitBlock : StackBlock → TypeState → Nat →
    Option (StackBlock × TypeState × Bool)
  | _, _, 0 => none
  | blk, state, fuel+1 => do
    let (b1, s1, ch) ← analyzeStackBlock blk state fuel
    let sc2 :=
      if b1.yields then
        if ch then (s1, true)
        else tsClear s1
      else (s1, ch)
    if sc2.2 then
      let b2 :=
        match b1.exitState with
        | some e => b1.withExit (some (tsOr e sc2.1).1)
        | none => b1.withExit (some sc2.1)
      some (b2, sc2.1, true)
    else some (b1, sc2.1, false)

end

/-- Escape of one character as inside a JSON string literal (the character
ranges that occur in the development). -/
def jsonEscapeChar (c : Char) : String :=
  if c = '"' then "\\\""
  else if c = '\\' then "\\\\"
  else if c = '\n' then "\\n"
  else if c = '\r' then "\\r"
  else if c = '\t' then "\\t"
  else String.singleton c

/-- Embedding of `sanitize` (`src/compiler/jsgen.js`):
`JSON.stringify(string).slice(1, -1)`. -/
def sanitize (s : String) : String :=
  String.join (s.toList.map jsonEscapeChar)

/-- JavaScript string interpolation of a boolean. -/
def boolStr (b : Bool) : String := if b then "true" else "false"

/-- Embedding of `isSafeInputForEqualsOptimization` (`src/compiler/jsgen.js`,
lines 44-54): only CONSTANT inputs that are always NUMBER or always
STRING_NUM, and whose numeric coercion is strictly unequal to 0, are safe. -/
def isSafeInputForEqualsOptimization (input : IInput) : Bool :=
  match input with
  | .constant _ v =>
    if input.isAlwaysType InputType.NUMBER || input.isAlwaysType InputType.STRING_NUM then
      !(jsToNumber v).strictEqZero
    else false
  | _ => false

/-- Embedding of `isSafeConstantForEqualsOptimization` (older code-generator
revision among the sources, lines 313-321): false for a falsy numeric
coercion (0, -0 or NaN), else requires the stringified numeric value to
round-trip to the original constant's string form. -/
def isSafeConstantForEqualsOptimization (constantValue : JSValue) : Bool :=
  let numberValue := jsToNumber constantValue
  if !numberValue.truthy then false
  else jsNumToString numberValue == jsValueToString constantValue

/-- Embedding of `Frame` (`src/compiler/jsgen.js`): whether the substack is
a loop and whether the current block is last in it. -/
structure Frame where
  isLoop : Bool
  isLastBlock : Bool
deriving DecidableEq

/-- What a `PROCEDURE_CALL` reads from `ir.procedures[variant]`: whether the
stack is null, the yields flag, and the argument count. -/
structure ProcInfo where
  stackNull : Bool
  yields : Bool
  argCount : Nat
deriving DecidableEq

/-- State of a `JSGenerator` as far as the claims need it: the accumulated
`source` text, the script flags, the frame stack and the setup-variable
pool behind `evaluateOnce`. -/
structure JSGenState where
  source : String
  isWarp : Bool
  isProcedure : Bool
  scriptYields : Bool
  warpTimer : Bool
  scriptProcedureCode : String
  frames : List Frame
  setupVariables : List (String × String)
  setupCounter : Nat
deriving DecidableEq

/-- Embedding of `JSGenerator.isLastBlockInLoop`: walk the frame stack from
the top; a non-last block answers false, the first loop frame answers
true. -/
def JSGenState.isLastBlockInLoop (g : JSGenState) : Bool :=
  go g.frames.reverse
where
  /-- Walk helper over the reversed frame stack. -/
  go : List Frame → Bool
    | [] => false
    | f :: rest =>
      if !f.isLastBlock then false
      else if f.isLoop then true
      else go rest

/-- Embedding of `JSGenerator.evaluateOnce`: returns the pooled name for a
setup expression, allocating `b0`, `b1`, ... on first use. -/
def JSGenState.evaluateOnce (g : JSGenState) (src : String) :
    String × JSGenState :=
  match g.setupVariables.find? (fun e => e.1 = src) with
  | some e => (e.2, g)
  | none =>
    let name := "b" ++ toString g.setupCounter
    (name, { g with
      setupVariables := g.setupVariables ++ [(src, name)],
      setupCounter := g.setupCounter + 1 })

/-- Appends text to the generated source. -/
def JSGenState.emit (g : JSGenState) (s : String) : JSGenState :=
  { g with source := g.source ++ s }

/-- Embedding of `JSGenerator.yielded` (`src/compiler/jsgen.js`, lines
901-906): throws when the script is not marked as yielding. -/
def JSGenState.yielded (g : JSGenState) : Except String JSGenState :=
  if !g.scriptYields then
    .error "Script yielded but is not marked as yielding."
  else .ok g

/-- Embedding of `JSGenerator.yieldNotWarp`: outside warp mode, appends
`yield;` and then calls `yielded`. -/
def JSGenState.yieldNotWarp (g : JSGenState) : Except String JSGenState :=
  if !g.isWarp then (g.emit "yield;\n").yielded
  else .ok g

/-- Embedding of `JSGenerator.yieldStuckOrNotWarp`: appends the conditional
stuck yield in warp mode or a plain yield otherwise, then calls `yielded`
in both cases. -/
def JSGenState.yieldStuckOrNotWarp (g : JSGenState) : Except String JSGenState :=
  if g.isWarp then (g.emit "if (isStuck()) yield;\n").yielded
  else (g.emit "yield;\n").yielded

/-- Embedding of `JSGenerator.yieldLoop`. -/
def JSGenState.yieldLoop (g : JSGenState) : Except String JSGenState :=
  if g.warpTimer then g.yieldStuckOrNotWarp else g.yieldNotWarp

/-- Embedding of `JSGenerator.retire` (`src/compiler/jsgen.js`, lines
860-869): inside a procedure appends `retire(); yield;`, otherwise
`retire(); return;`. No check of the yields flag is performed on this
path. -/
def JSGenState.retire (g : JSGenState) : JSGenState :=
  if g.isProcedure then g.emit "retire(); yield;\n"
  else g.emit "retire(); return;\n"

/-- Embedding of the code generator's `descendInput` restricted to the
CONSTANT case (the only reporter the claims descend); other opcodes are
outside this partial embedding and report a model error, which no theorem
below evaluates. -/
def descendInput (block : IInput) : Except String String :=
  match block with
  | .constant _ v =>
    if block.isAlwaysType InputType.NUMBER then
      match v with
      | .num n =>
        if n = .negZero then .ok "-0" else .ok (jsNumToString n)
      | _ => .error "JS: number type constant had wrong type value."
    else if block.isAlwaysType InputType.BOOLEAN then
      match v with
      | .bool b => .ok (boolStr b)
      | _ => .error "JS: boolean type constant had wrong type value."
    else if block.isSometimesType InputType.STRING then
      .ok ("\"" ++ sanitize (jsValueToString v) ++ "\"")
    else .error "JS: Unknown constant input type."
  | _ => .error "input opcode outside the modeled subset"

/-- Embedding of `JSGenerator.descendInputRecord`: an object literal with
one sanitized key and compiled input per entry. -/
def descendInputRecord (inputs : List (String × IInput)) :
    Except String String := do
  let mut result := "\x7b"
  for e in inputs do
    let compiled ← descendInput e.2
    result := result ++ "\"" ++ sanitize e.1 ++ "\":" ++ compiled ++ ","
  return result ++ "\x7d"

/-- Embedding of `JSGenerator.generateCompatibilityLayerCall`: the
`yield* executeInCompatibilityLayer(...)` expression with the inputs and
fields object, the pooled opcode function, the warp flag and the
`setFlags` argument. -/
def generateCompatibilityLayerCall (g : JSGenState) (opcode : String)
    (inputs : List (String × IInput)) (fields : List (String × String))
    (setFlags : Bool) : Except String (String × JSGenState) := do
  let mut result := "yield* executeInCompatibilityLayer(\x7b"
  for e in inputs do
    let compiled ← descendInput e.2
    result := result ++ "\"" ++ sanitize e.1 ++ "\":" ++ compiled ++ ","
  for f in fields do
    result := result ++ "\"" ++ sanitize f.1 ++ "\":\"" ++ sanitize f.2 ++ "\","
  let opFn := g.evaluateOnce ("runtime.getOpcodeFunction(\"" ++ sanitize opcode ++ "\")")
  return (result ++ "\x7d, " ++ opFn.1 ++ ", " ++ boolStr g.isWarp ++ ", " ++
    boolStr setFlags ++ ", null)", opFn.2)

/-- Embedding of `JSGenerator.descendStackedBlock` restricted to the
opcodes claim 7 names (ADDON_CALL, COMPATIBILITY_LAYER,
EVENT_BROADCAST_AND_WAIT, CONTROL_STOP_ALL, CONTROL_STOP_SCRIPT,
PROCEDURE_CALL); the remaining opcodes of the source switch are outside
this partial embedding and report a model error, which no theorem below
evaluates. -/
def descendStackedBlock (procs : List (String × ProcInfo))
    (g : JSGenState) (b : StackBlock) : Except String JSGenState :=
  match b.op with
  | .addonCall code blockId args => do
    let inputs ← descendInputRecord args
    let blockFunction :=
      "runtime.getAddonBlock(\"" ++ sanitize code ++ "\").callback"
    let blockId' := "\"" ++ sanitize blockId ++ "\""
    return g.emit ("yield* executeInCompatibilityLayer(" ++ inputs ++ ", " ++
      blockFunction ++ ", " ++ boolStr g.isWarp ++ ", false, " ++ blockId' ++ ");\n")
  | .compatCall opcode inputs fields => do
    let isLastInLoop := g.isLastBlockInLoop
    let call ← generateCompatibilityLayerCall g opcode inputs fields isLastInLoop
    let g1 := call.2.emit (call.1 ++ ";\n")
    if isLastInLoop then
      return g1.emit
        "if (hasResumedFromPromise) \x7bhasResumedFromPromise = false;continue;\x7d\n"
    else
      return g1
  | .broadcastAndWait broadcast => do
    let bc ← descendInput broadcast
    let g1 := g.emit ("yield* waitThreads(startHats(\"event_whenbroadcastreceived\", \x7b BROADCAST_OPTION: " ++
      bc ++ " \x7d));\n")
    g1.yielded
  | .stopAll =>
    .ok ((g.emit "runtime.stopAll();\n").retire)
  | .stopScript =>
    if g.isProcedure then .ok (g.emit "return;\n")
    else .ok g.retire
  | .procedureCall code variant args => do
    match procs.find? (fun e => e.1 = variant) with
    | none => .error "missing procedure variant"
    | some e =>
      let procedureData := e.2
      if procedureData.stackNull then return g
      let g1 ←
        if !g.isWarp ∧ code = g.scriptProcedureCode then
          g.yieldNotWarp
        else pure g
      let g2 ←
        if procedureData.yields then
          let g2 := g1.emit "yield* "
          if !g2.scriptYields then
            .error "Script uses yielding procedure but is not marked as yielding."
          else pure g2
        else pure g1
      let g3 := g2.emit ("thread.procedures[\"" ++ sanitize variant ++ "\"](")
      let g4 ←
        if procedureData.argCount ≠ 0 then do
          let mut compiled : List String := []
          for a in args do
            let c ← descendInput a
            compiled := compiled ++ [c]
          pure (g3.emit (String.intercalate "," compiled))
        else pure g3
      return g4.emit ");\n"
  | _ => .error "stack opcode outside the modeled subset"


/-- Keys of a TypeState. -/
def tsKeys (s : TypeState) : List String := s.map Prod.fst

/-- The keys are pairwise distinct (JavaScript object keys are unique). -/
def KeysNodup (s : TypeState) : Prop := (tsKeys s).Nodup

/-- Every stored lattice element is a sub-bitset of ANY (the program
invariant the spec states for lattice values). -/
def tsBounded (s : TypeState) : Prop :=
  ∀ e ∈ s, e.2 &&& InputType.ANY = e.2

/-- Sum of the stored lattice elements: the strictly increasing measure of
the fixed-point iteration. -/
def Msum (s : TypeState) : Nat := (s.map (fun e => e.2)).sum

/-- Every `type` field along the arms the analyzer reads is a sub-bitset of
ANY. -/
def inputBounded : IInput → Bool
  | .constant t _ => decide (t &&& InputType.ANY = t)
  | .varGet t _ => decide (t &&& InputType.ANY = t)
  | .castNumber t x => decide (t &&& InputType.ANY = t) && inputBounded x
  | .castNumberOrNan t x => decide (t &&& InputType.ANY = t) && inputBounded x
  | .castBoolean t x => decide (t &&& InputType.ANY = t) && inputBounded x
  | .castString t x => decide (t &&& InputType.ANY = t) && inputBounded x
  | .opAdd t l r => decide (t &&& InputType.ANY = t) && inputBounded l && inputBounded r
  | .opSubtract t l r => decide (t &&& InputType.ANY = t) && inputBounded l && inputBounded r
  | .opMultiply t l r => decide (t &&& InputType.ANY = t) && inputBounded l && inputBounded r
  | .opDivide t l r => decide (t &&& InputType.ANY = t) && inputBounded l && inputBounded r
  | .other t _ => decide (t &&& InputType.ANY = t)

mutual

/-- Structural size of opcode data, ignoring annotations. -/
def opSize : StackOpData → Nat
  | .controlWhile body => 1 + stackSize body
  | .controlFor body => 1 + stackSize body
  | .controlRepeat body => 1 + stackSize body
  | .controlIfElse wt wf => 1 + stackSize wt + stackSize wf
  | _ => 1

/-- Structural size of a block, ignoring annotations. -/
def blockSize : StackBlock → Nat
  | .mk op _ _ _ => 1 + opSize op

/-- Structural size of a block list. -/
def blocksSize : List StackBlock → Nat
  | [] => 0
  | b :: rest => blockSize b + blocksSize rest

/-- Structural size of a stack, ignoring annotations. -/
def stackSize : Stack → Nat
  | .mk blocks => 1 + blocksSize blocks

end

mutual

/-- Variable names a block's opcode can assign. -/
def opVars : StackOpData → List String
  | .varSet n _ => [n]
  | .controlWhile body => stackVars body
  | .controlFor body => stackVars body
  | .controlRepeat body => stackVars body
  | .controlIfElse wt wf => stackVars wt ++ stackVars wf
  | _ => []

/-- Variable names a block can assign. -/
def blockVars : StackBlock → List String
  | .mk op _ _ _ => opVars op

/-- Variable names a block list can assign. -/
def blocksVars : List StackBlock → List String
  | [] => []
  | b :: rest => blockVars b ++ blocksVars rest

/-- Variable names a stack can assign. -/
def stackVars : Stack → List String
  | .mk blocks => blocksVars blocks

end

mutual

/-- All `type` fields in the opcode data's analyzed inputs are bounded. -/
def opBounded : StackOpData → Bool
  | .varSet _ v => inputBounded v
  | .controlWhile body => stackBounded body
  | .controlFor body => stackBounded body
  | .controlRepeat body => stackBounded body
  | .controlIfElse wt wf => stackBounded wt && stackBounded wf
  | _ => true

/-- All `type` fields in the block's analyzed inputs are bounded. -/
def blockBounded : StackBlock → Bool
  | .mk op _ _ _ => opBounded op

/-- All `type` fields in the list's analyzed inputs are bounded. -/
def blocksBounded : List StackBlock → Bool
  | [] => true
  | b :: rest => blockBounded b && blocksBounded rest

/-- All `type` fields in the stack's analyzed inputs are bounded. -/
def stackBounded : Stack → Bool
  | .mk blocks => blocksBounded blocks

end

/-- CONSTANT node for the number literal 1, typed by `getNumberInputType`
as the front end does. -/
def constOneInput : IInput :=
  .constant (getNumberInputType (.finite ⟨1, 0⟩)) (.num (.finite ⟨1, 0⟩))

/-- CONSTANT node for the number literal 0. -/
def constZeroInput : IInput :=
  .constant (getNumberInputType (.finite ⟨0, 0⟩)) (.num (.finite ⟨0, 0⟩))

/-- The input tree of `1 / 0`. -/
def divideOneByZero : IInput :=
  .opDivide InputType.NUMBER_OR_NAN constOneInput constZeroInput

/-- CONSTANT node for the string literal `"s"`. -/
def constStrInput : IInput := .constant InputType.STRING (.str "s")

/-- VAR_SET of `x` to the string constant. -/
def varSetStrBlock : StackBlock := .mk (.varSet "x" constStrInput) false none none

/-- VAR_SET of `x` to the number constant 1. -/
def varSetOneBlock : StackBlock := .mk (.varSet "x" constOneInput) false none none

/-- IF_ELSE whose true branch sets `x` to a string and whose false branch
sets `x` to the number 1. -/
def ifElseDemo : StackBlock :=
  .mk (.controlIfElse (.mk [varSetStrBlock]) (.mk [varSetOneBlock])) false none none

/-- Non-yielding WHILE whose body sets `x` to a string. -/
def whileDemo : StackBlock :=
  .mk (.controlWhile (.mk [varSetStrBlock])) false none none

/-- A generator state for a script not marked as yielding. -/
def nonYieldingGen : JSGenState :=
  { source := "", isWarp := false, isProcedure := false, scriptYields := false,
    warpTimer := false, scriptProcedureCode := "", frames := [],
    setupVariables := [], setupCounter := 0 }

/-- An ADDON_CALL block with no arguments. -/
def addonDemoBlock : StackBlock := .mk (.addonCall "c" "b" []) false none none

/-- CONSTANT `"010"` carrying the STRING_NUM flag (a string that parses as
a number). -/
def unsafeConstant : IInput := .constant InputType.STRING_NUM (.str "010")

/-- The generator state of a procedure script not marked as yielding. -/
def procGen : JSGenState := { nonYieldingGen with isProcedure := true }

/-- An EVENT_BROADCAST_AND_WAIT block broadcasting the string constant
`"m"`. -/
def broadcastDemoBlock : StackBlock :=
  .mk (.broadcastAndWait (.constant InputType.STRING (.str "m"))) false none none

/-- The block's opcode is one of the three loop opcodes over `stack` (the
shape in which `analyzeStackBlock` delegates to `analyzeLoopedStack`). -/
def IsLoopOf (b : StackBlock) (stack : Stack) : Prop :=
  b.op = .controlWhile stack ∨ b.op = .controlFor stack ∨ b.op = .controlRepeat stack

/-- Well-formedness of an analysis output state `st'` relative to the input
state `st` and the variables `vars` the analyzed code can assign: unique
keys, bounded values, and no keys beyond the input's and the assigned
ones. -/
def StatePres (st st' : TypeState) (vars : List String) : Prop :=
  KeysNodup st' ∧ tsBounded st' ∧ (∀ k ∈ tsKeys st', k ∈ tsKeys st ∨ k ∈ vars)

/-- The analyzer rewrites a block without changing its structural size,
assignable variables, boundedness, or yields flag. -/
def BlockPres (b b' : StackBlock) : Prop :=
  blockSize b' = blockSize b ∧ blockVars b' = blockVars b ∧
  blockBounded b' = true ∧ b'.yields = b.yields

/-- The analyzer rewrites a stack without changing its structural size,
assignable variables, or boundedness. -/
def StackPres (s s' : Stack) : Prop :=
  stackSize s' = stackSize s ∧ stackVars s' = stackVars s ∧ stackBounded s' = true

/-- The analyzer rewrites a block list without changing its structural
size, assignable variables, or boundedness. -/
def BlocksPres (bs bs' : List StackBlock) : Prop :=
  blocksSize bs' = blocksSize bs ∧ blocksVars bs' = blocksVars bs ∧
  blocksBounded bs' = true

end ScratchVM


namespace ScratchVM

/-- Bit-or of two sub-bitsets of ANY is a sub-bitset of ANY. -/
theorem or_bounded {a b : Nat} (ha : a &&& InputType.ANY = a)
    (hb : b &&& InputType.ANY = b) : (a ||| b) &&& InputType.ANY = a ||| b := by
  refine Nat.eq_of_testBit_eq (fun i => ?_)
  have h1 := congrArg (fun x => Nat.testBit x i) ha
  have h2 := congrArg (fun x => Nat.testBit x i) hb
  simp only [Nat.testBit_land, Nat.testBit_lor] at h1 h2 ⊢
  cases hA : Nat.testBit InputType.ANY i <;>
    cases hx : Nat.testBit a i <;> cases hy : Nat.testBit b i <;>
    simp_all

/-- An if-term with bounded branches is bounded. -/
theorem ite_bounded {c : Prop} [Decidable c] {a b : Nat}
    (ha : a &&& InputType.ANY = a) (hb : b &&& InputType.ANY = b) :
    (if c then a else b) &&& InputType.ANY = (if c then a else b) := by
  by_cases h : c <;> simp [h, ha, hb]

/-- A number is at most any bit-or containing it. -/
theorem le_or_self (a b : Nat) : a ≤ a ||| b := by
  refine Nat.le_of_testBit (fun i h => ?_)
  simp [Nat.testBit_lor, h]

/-- Joining a sub-bitset of ANY into ANY is absorbed. -/
theorem any_or_bounded {b : Nat} (hb : b &&& InputType.ANY = b) :
    InputType.ANY ||| b = InputType.ANY := by
  refine Nat.eq_of_testBit_eq (fun i => ?_)
  have h2 := congrArg (fun x => Nat.testBit x i) hb
  simp only [Nat.testBit_land, Nat.testBit_lor] at h2 ⊢
  cases hA : Nat.testBit InputType.ANY i <;> cases hy : Nat.testBit b i <;>
    simp_all

/-- A proper sub-bitset of ANY is numerically below ANY. -/
theorem bounded_lt_any {a : Nat} (ha : a &&& InputType.ANY = a)
    (hne : a ≠ InputType.ANY) : a < InputType.ANY := by
  have hle : a ≤ InputType.ANY := ha ▸ Nat.and_le_right
  exact lt_of_le_of_ne hle hne

/-- Lookup after assignment. -/
theorem tsLookup_tsSet (s : TypeState) (k : String) (v : Nat) (k' : String) :
    tsLookup (tsSet s k v) k' = if k' = k then some v else tsLookup s k' := by
  induction s with
  | nil =>
    by_cases h : k' = k
    · simp [tsSet, tsLookup, h]
    · have h2 : ¬(k = k') := fun hh => h hh.symm
      simp [tsSet, tsLookup, h, h2]
  | cons e rest ih =>
    by_cases he : e.1 = k
    · by_cases h : k' = k
      · subst h
        simp [tsSet, he, tsLookup]
      · have h2 : ¬(k = k') := fun hh => h hh.symm
        have h3 : ¬(e.1 = k') := by rw [he]; exact h2
        simp [tsSet, he, tsLookup, h, h2, h3]
    · by_cases h : k' = e.1
      · have hkk : ¬(k' = k) := by rw [h]; exact he
        have h4 : e.1 = k' := h.symm
        simp [tsSet, he, tsLookup, h4, hkk]
      · have h4 : ¬(e.1 = k') := fun hh => h hh.symm
        simp [tsSet, he, tsLookup, h4, ih]

/-- Assignment to a present key keeps the key list. -/
theorem tsKeys_tsSet_mem {s : TypeState} {k : String} (v : Nat)
    (h : k ∈ tsKeys s) : tsKeys (tsSet s k v) = tsKeys s := by
  induction s with
  | nil => simp [tsKeys] at h
  | cons e rest ih =>
    by_cases he : e.1 = k
    · simp [tsSet, he, tsKeys]
    · simp only [tsKeys, List.map_cons, List.mem_cons] at h
      rcases h with h | h
      · exact absurd h.symm (by simpa using he)
      · simpa [tsSet, he, tsKeys, List.map_cons] using congrArg (e.1 :: ·) (ih h)

/-- Assignment to an absent key appends it. -/
theorem tsKeys_tsSet_not_mem {s : TypeState} {k : String} (v : Nat)
    (h : k ∉ tsKeys s) : tsKeys (tsSet s k v) = tsKeys s ++ [k] := by
  induction s with
  | nil => simp [tsSet, tsKeys]
  | cons e rest ih =>
    simp only [tsKeys, List.map_cons, List.mem_cons] at h
    push_neg at h
    have he : ¬(e.1 = k) := by intro hh; subst hh; exact h.1 rfl
    simpa [tsSet, he, tsKeys, List.map_cons] using congrArg (e.1 :: ·) (ih h.2)

/-- Nodup keys are preserved by assignment. -/
theorem KeysNodup_tsSet {s : TypeState} (k : String) (v : Nat)
    (h : KeysNodup s) : KeysNodup (tsSet s k v) := by
  by_cases hm : k ∈ tsKeys s
  · rwa [KeysNodup, tsKeys_tsSet_mem v hm]
  · rw [KeysNodup, tsKeys_tsSet_not_mem v hm]
    simpa [List.nodup_append] using ⟨h, hm⟩

/-- Boundedness is preserved by a bounded assignment. -/
theorem tsBounded_tsSet {k : String} {v : Nat}
    (hv : v &&& InputType.ANY = v) :
    ∀ (s : TypeState), tsBounded s → tsBounded (tsSet s k v) := by
  intro s
  induction s with
  | nil =>
    intro _ e he
    simp only [tsSet, List.mem_singleton] at he
    simp [he, hv]
  | cons e0 rest ih =>
    intro h e he'
    by_cases he : e0.1 = k
    · simp only [tsSet, if_pos he] at he'
      rcases List.mem_cons.mp he' with h1 | h1
      · simp [h1, hv]
      · exact h e (List.mem_cons_of_mem _ h1)
    · simp only [tsSet, if_neg he] at he'
      rcases List.mem_cons.mp he' with h1 | h1
      · exact h e (h1 ▸ List.mem_cons_self _ _)
      · exact ih (fun x hx => h x (List.mem_cons_of_mem _ hx)) e h1

/-- Lookup is `none` exactly off the key list. -/
theorem tsLookup_none_iff (s : TypeState) (k : String) :
    tsLookup s k = none ↔ k ∉ tsKeys s := by
  induction s with
  | nil => simp [tsLookup, tsKeys]
  | cons e rest ih =>
    by_cases he : e.1 = k
    · subst he
      simp [tsLookup, tsKeys, List.map_cons]
    · have he2 : ¬(k = e.1) := fun hh => he hh.symm
      simp [tsLookup, tsKeys, List.map_cons, he, he2, ih]

/-- Looked-up values of a bounded state are bounded. -/
theorem tsLookup_bounded {s : TypeState} {k : String} {c : Nat}
    (hb : tsBounded s) (h : tsLookup s k = some c) :
    c &&& InputType.ANY = c := by
  induction s with
  | nil => simp [tsLookup] at h
  | cons e rest ih =>
    by_cases he : e.1 = k
    · simp only [tsLookup, if_pos he, Option.some.injEq] at h
      exact h ▸ hb e (List.mem_cons_self _ _)
    · simp only [tsLookup, if_neg he] at h
      exact ih (fun x hx => hb x (List.mem_cons_of_mem _ hx)) h

/-- Measure change of an assignment over a present value. -/
theorem Msum_tsSet_mem {s : TypeState} {k : String} {c : Nat} (v : Nat)
    (h : tsLookup s k = some c) :
    Msum (tsSet s k v) + c = Msum s + v := by
  induction s with
  | nil => simp [tsLookup] at h
  | cons e rest ih =>
    by_cases he : e.1 = k
    · simp only [tsLookup, if_pos he, Option.some.injEq] at h
      simp [tsSet, he, Msum, h]
      omega
    · simp only [tsLookup, if_neg he] at h
      have := ih h
      simp only [tsSet, if_neg he, Msum, List.map_cons, List.sum_cons] at this ⊢
      omega

/-- Measure change of an assignment of a fresh key. -/
theorem Msum_tsSet_not_mem {s : TypeState} {k : String} (v : Nat)
    (h : tsLookup s k = none) :
    Msum (tsSet s k v) = Msum s + v := by
  induction s with
  | nil => simp [tsSet, Msum]
  | cons e rest ih =>
    by_cases he : e.1 = k
    · simp [tsLookup, he] at h
    · simp only [tsLookup, if_neg he] at h
      have := ih h
      simp only [tsSet, if_neg he, Msum, List.map_cons, List.sum_cons] at this ⊢
      omega

/-- One step of the first loop of `TypeState.or`: preserves key uniqueness
and boundedness, can only add the key of the processed entry, never
decreases the measure, and reports a change only alongside a strict
measure increase. -/
theorem tsOrStep_spec (acc : TypeState × Bool) (e : String × Nat)
    (hn : KeysNodup acc.1) (hb : tsBounded acc.1)
    (he : e.2 &&& InputType.ANY = e.2) :
    KeysNodup (tsOrStep acc e).1 ∧ tsBounded (tsOrStep acc e).1 ∧
    (∀ k, k ∈ tsKeys (tsOrStep acc e).1 → k ∈ tsKeys acc.1 ∨ k = e.1) ∧
    Msum acc.1 ≤ Msum (tsOrStep acc e).1 ∧
    ((tsOrStep acc e).2 = true → acc.2 = true ∨ Msum acc.1 < Msum (tsOrStep acc e).1) := by
  cases h : tsLookup acc.1 e.1 with
  | none =>
    have hne : e.1 ∉ tsKeys acc.1 := (tsLookup_none_iff _ _).mp h
    have hval : InputType.ANY ||| e.2 = InputType.ANY := any_or_bounded he
    simp only [tsOrStep, h, Option.getD_none, Option.getD_some]
    refine ⟨KeysNodup_tsSet _ _ hn, tsBounded_tsSet (by rw [hval]; decide) _ hb, ?_, ?_, ?_⟩
    · intro k hk
      rw [tsKeys_tsSet_not_mem _ hne] at hk
      rcases List.mem_append.mp hk with hk | hk
      · exact Or.inl hk
      · exact Or.inr (List.mem_singleton.mp hk)
    · rw [Msum_tsSet_not_mem _ h]; omega
    · intro hf
      rcases Bool.or_eq_true_iff.mp hf with hf | hf
      · exact Or.inl hf
      · exact absurd hval.symm (of_decide_eq_true hf)
  | some c =>
    have hmem : e.1 ∈ tsKeys acc.1 := by
      by_contra hcon
      rw [← tsLookup_none_iff] at hcon
      rw [h] at hcon
      exact Option.noConfusion hcon
    have hcb : c &&& InputType.ANY = c := tsLookup_bounded hb h
    have hle : c ≤ c ||| e.2 := le_or_self c e.2
    have hMsum := Msum_tsSet_mem (c ||| e.2) h
    simp only [tsOrStep, h, Option.getD_some]
    refine ⟨KeysNodup_tsSet _ _ hn, tsBounded_tsSet (or_bounded hcb he) _ hb, ?_, ?_, ?_⟩
    · intro k hk
      rw [tsKeys_tsSet_mem _ hmem] at hk
      exact Or.inl hk
    · omega
    · intro hf
      rcases Bool.or_eq_true_iff.mp hf with hf | hf
      · exact Or.inl hf
      · have : c ≠ c ||| e.2 := of_decide_eq_true hf
        have : c < c ||| e.2 := lt_of_le_of_ne hle this
        exact Or.inr (by omega)

/-- The first loop of `TypeState.or` (a fold of `tsOrStep` over the other
state's entries): preserves key uniqueness and boundedness, adds only keys
of the other state, never decreases the measure, and reports a change only
alongside a strict measure increase. -/
theorem foldl_tsOrStep_spec :
    ∀ (other : TypeState) (acc : TypeState × Bool),
    KeysNodup acc.1 → tsBounded acc.1 →
    (∀ e ∈ other, e.2 &&& InputType.ANY = e.2) →
    KeysNodup (other.foldl tsOrStep acc).1 ∧
    tsBounded (other.foldl tsOrStep acc).1 ∧
    (∀ k, k ∈ tsKeys (other.foldl tsOrStep acc).1 →
      k ∈ tsKeys acc.1 ∨ k ∈ tsKeys other) ∧
    Msum acc.1 ≤ Msum (other.foldl tsOrStep acc).1 ∧
    ((other.foldl tsOrStep acc).2 = true →
      acc.2 = true ∨ Msum acc.1 < Msum (other.foldl tsOrStep acc).1) := by
  intro other
  induction other with
  | nil =>
    intro acc hn hb _
    exact ⟨hn, hb, fun k hk => Or.inl hk, le_refl _, fun hf => Or.inl hf⟩
  | cons e rest ih =>
    intro acc hn hb ho
    have hstep := tsOrStep_spec acc e hn hb (ho e (List.mem_cons_self _ _))
    have hrest := ih (tsOrStep acc e) hstep.1 hstep.2.1
      (fun x hx => ho x (List.mem_cons_of_mem _ hx))
    simp only [List.foldl_cons]
    refine ⟨hrest.1, hrest.2.1, ?_, le_trans hstep.2.2.2.1 hrest.2.2.2.1, ?_⟩
    · intro k hk
      rcases hrest.2.2.1 k hk with hk | hk
      · rcases hstep.2.2.1 k hk with hk | hk
        · exact Or.inl hk
        · exact Or.inr (by simp [tsKeys, hk])
      · exact Or.inr (by simp [tsKeys]; exact Or.inr (by simpa [tsKeys] using hk))
    · intro hf
      rcases hrest.2.2.2.2 hf with hf | hf
      · rcases hstep.2.2.2.2 hf with hf | hf
        · exact Or.inl hf
        · exact Or.inr (lt_of_lt_of_le hf hrest.2.2.2.1)
      · exact Or.inr (lt_of_le_of_lt hstep.2.2.2.1 hf)

/-- The promotion map of the second loop of `TypeState.or` keeps the key
list unchanged. -/
theorem tsKeys_promote (o : TypeState) :
    ∀ (s : TypeState),
    tsKeys (s.map (fun e =>
      if (tsLookup o e.1).getD 0 = 0 ∧ e.2 ≠ InputType.ANY
      then (e.1, InputType.ANY) else e)) = tsKeys s := by
  intro s
  induction s with
  | nil => rfl
  | cons e rest ih =>
    simp only [List.map_cons, tsKeys] at ih ⊢
    rw [ih]
    split <;> rfl

/-- The promotion map of the second loop of `TypeState.or` preserves
boundedness. -/
theorem tsBounded_promote (o : TypeState) :
    ∀ (s : TypeState), tsBounded s →
    tsBounded (s.map (fun e =>
      if (tsLookup o e.1).getD 0 = 0 ∧ e.2 ≠ InputType.ANY
      then (e.1, InputType.ANY) else e)) := by
  intro s hb x hx
  rcases List.mem_map.mp hx with ⟨e, he, hfe⟩
  by_cases hc : (tsLookup o e.1).getD 0 = 0 ∧ e.2 ≠ InputType.ANY
  · rw [if_pos hc] at hfe
    rw [← hfe]
    show InputType.ANY &&& InputType.ANY = InputType.ANY
    decide
  · rw [if_neg hc] at hfe
    exact hfe ▸ hb e he

/-- The promotion map never decreases the measure; when some entry is
promoted (the `any` flag of the source), the measure strictly increases. -/
theorem Msum_promote (o : TypeState) :
    ∀ (s : TypeState), tsBounded s →
    Msum s ≤ Msum (s.map (fun e =>
      if (tsLookup o e.1).getD 0 = 0 ∧ e.2 ≠ InputType.ANY
      then (e.1, InputType.ANY) else e)) ∧
    (s.any (fun e =>
      decide ((tsLookup o e.1).getD 0 = 0) && decide (e.2 ≠ InputType.ANY)) = true →
      Msum s < Msum (s.map (fun e =>
        if (tsLookup o e.1).getD 0 = 0 ∧ e.2 ≠ InputType.ANY
        then (e.1, InputType.ANY) else e))) := by
  intro s
  induction s with
  | nil => exact fun _ => ⟨le_refl _, fun hf => by simp at hf⟩
  | cons e rest ih =>
    intro hb
    have hrest := ih (fun x hx => hb x (List.mem_cons_of_mem _ hx))
    have hle : e.2 ≤ InputType.ANY := by
      have h2 := hb e (List.mem_cons_self _ _)
      calc e.2 = e.2 &&& InputType.ANY := h2.symm
      _ ≤ InputType.ANY := Nat.and_le_right
    have hhead : e.2 ≤ (if (tsLookup o e.1).getD 0 = 0 ∧ e.2 ≠ InputType.ANY
        then (e.1, InputType.ANY) else e).2 := by
      split
      · exact hle
      · exact le_refl _
    have hr1 := hrest.1
    constructor
    · simp only [Msum, List.map_cons, List.sum_cons] at hr1 hhead ⊢
      omega
    · intro hf
      simp only [List.any_cons, Bool.or_eq_true] at hf
      rcases hf with hf | hf
      · have hand := Bool.and_eq_true_iff.mp hf
        have hcond : (tsLookup o e.1).getD 0 = 0 ∧ e.2 ≠ InputType.ANY :=
          ⟨of_decide_eq_true hand.1, of_decide_eq_true hand.2⟩
        have hlt2 : e.2 < (if (tsLookup o e.1).getD 0 = 0 ∧ e.2 ≠ InputType.ANY
            then (e.1, InputType.ANY) else e).2 := by
          rw [if_pos hcond]
          exact bounded_lt_any (hb e (List.mem_cons_self _ _)) hcond.2
        simp only [Msum, List.map_cons, List.sum_cons] at hr1 hlt2 ⊢
        omega
      · have hlt2 := hrest.2 hf
        simp only [Msum, List.map_cons, List.sum_cons] at hlt2 hhead ⊢
        omega

/-- `TypeState.or` of a well-formed state with a bounded other state:
preserves key uniqueness and boundedness, adds only keys present in the
other state, never decreases the measure, and reports a change exactly
alongside a strict measure increase. -/
theorem tsOr_spec (s o : TypeState) (hn : KeysNodup s) (hb : tsBounded s)
    (ho : tsBounded o) :
    KeysNodup (tsOr s o).1 ∧ tsBounded (tsOr s o).1 ∧
    (∀ k, k ∈ tsKeys (tsOr s o).1 → k ∈ tsKeys s ∨ k ∈ tsKeys o) ∧
    Msum s ≤ Msum (tsOr s o).1 ∧
    ((tsOr s o).2 = true → Msum s < Msum (tsOr s o).1) := by
  have hfold := foldl_tsOrStep_spec o (s, false) hn hb ho
  set s1m := o.foldl tsOrStep (s, false) with hs1m
  have hkeys := tsKeys_promote o s1m.1
  have hbnd := tsBounded_promote o s1m.1 hfold.2.1
  have hms := Msum_promote o s1m.1 hfold.2.1
  simp only [tsOr, ← hs1m]
  refine ⟨?_, hbnd, ?_, ?_, ?_⟩
  · rw [KeysNodup, hkeys]
    exact hfold.1
  · intro k hk
    rw [hkeys] at hk
    exact hfold.2.2.1 k hk
  · exact le_trans hfold.2.2.2.1 hms.1
  · intro hf
    rcases Bool.or_eq_true_iff.mp hf with hf | hf
    · rcases hfold.2.2.2.2 hf with hf | hf
      · exact absurd hf (by simp)
      · exact lt_of_lt_of_le hf hms.1
    · exact lt_of_le_of_lt hfold.2.2.2.1 (hms.2 hf)

/-- The measure of a bounded state is at most ANY per entry. -/
theorem Msum_le_length {s : TypeState} (hb : tsBounded s) :
    Msum s ≤ s.length * InputType.ANY := by
  induction s with
  | nil => simp [Msum]
  | cons e rest ih =>
    have he : e.2 ≤ InputType.ANY := by
      have := hb e (List.mem_cons_self _ _)
      calc e.2 ≤ e.2 &&& InputType.ANY := by rw [this]
      _ ≤ InputType.ANY := Nat.and_le_right
    have := ih (fun x hx => hb x (List.mem_cons_of_mem _ hx))
    simp only [Msum, List.map_cons, List.sum_cons, List.length_cons] at this ⊢
    calc e.2 + (rest.map (fun e => e.2)).sum
        ≤ InputType.ANY + rest.length * InputType.ANY := by omega
    _ = (rest.length + 1) * InputType.ANY := by ring

/-- A duplicate-free list contained in `u` has at most `u.toFinset.card`
elements. -/
theorem nodup_subset_length {l u : List String} (hn : l.Nodup)
    (hsub : ∀ x ∈ l, x ∈ u) : l.length ≤ u.toFinset.card := by
  have h1 : l.toFinset.card = l.length := List.toFinset_card_of_nodup hn
  have h2 : l.toFinset ⊆ u.toFinset := by
    intro x hx
    rw [List.mem_toFinset] at hx ⊢
    exact hsub x hx
  rw [← h1]
  exact Finset.card_le_card h2

/-- Combined measure bound: a well-formed state whose keys stay inside `u`
has measure at most `u.toFinset.card * ANY`. -/
theorem Msum_le_card {s : TypeState} {u : List String} (hn : KeysNodup s)
    (hb : tsBounded s) (hsub : ∀ x ∈ tsKeys s, x ∈ u) :
    Msum s ≤ u.toFinset.card * InputType.ANY := by
  have h1 : Msum s ≤ s.length * InputType.ANY := Msum_le_length hb
  have h2 : (tsKeys s).length = s.length := by simp [tsKeys]
  have h3 : (tsKeys s).length ≤ u.toFinset.card := nodup_subset_length hn hsub
  calc Msum s ≤ s.length * InputType.ANY := h1
  _ ≤ u.toFinset.card * InputType.ANY := Nat.mul_le_mul_right _ (by omega)

/-- The analyzer's transfer function always returns a sub-bitset of ANY on
bounded inputs: every arm is a union of type constants or a bounded
fall-through. -/
theorem analyze_bounded : ∀ (n : Nat) (i : IInput), sizeOf i ≤ n →
    ∀ (st : TypeState), tsBounded st → inputBounded i = true →
    analyzeInputBlock i st &&& InputType.ANY = analyzeInputBlock i st := by
  intro n
  induction n with
  | zero => intro i hi; cases i <;> simp at hi
  | succ n ih =>
    intro i hi st hst hb
    cases i with
    | constant t v =>
      simp only [inputBounded] at hb
      simp only [analyzeInputBlock, IInput.type]
      exact of_decide_eq_true hb
    | varGet t name =>
      simp only [analyzeInputBlock, getVariableType]
      cases h : tsLookup st name with
      | none => simp only [Option.getD_none]; decide
      | some c => simp only [Option.getD_some]; exact tsLookup_bounded hst h
    | castNumber t x =>
      simp only [inputBounded, Bool.and_eq_true] at hb
      have ihx := ih x (by simp at hi; omega) st hst hb.2
      simp only [analyzeInputBlock]
      exact ite_bounded ihx (by decide)
    | castNumberOrNan t x =>
      simp only [inputBounded, Bool.and_eq_true] at hb
      have ihx := ih x (by simp at hi; omega) st hst hb.2
      simp only [analyzeInputBlock]
      exact ite_bounded ihx (by decide)
    | castBoolean t x =>
      simp only [inputBounded, Bool.and_eq_true] at hb
      simp only [analyzeInputBlock, IInput.type]
      exact of_decide_eq_true hb.1
    | castString t x =>
      simp only [inputBounded, Bool.and_eq_true] at hb
      simp only [analyzeInputBlock, IInput.type]
      exact of_decide_eq_true hb.1
    | opAdd t l r =>
      simp only [inputBounded, Bool.and_eq_true] at hb
      have ihl := ih l (by simp at hi; omega) st hst hb.1.2
      have ihr := ih r (by simp at hi; omega) st hst hb.2
      simp only [analyzeInputBlock]
      repeat first
        | apply or_bounded
        | apply ite_bounded
        | decide
    | opSubtract t l r =>
      simp only [inputBounded, Bool.and_eq_true] at hb
      have ihl := ih l (by simp at hi; omega) st hst hb.1.2
      have ihr := ih r (by simp at hi; omega) st hst hb.2
      simp only [analyzeInputBlock]
      repeat first
        | apply or_bounded
        | apply ite_bounded
        | decide
    | opMultiply t l r =>
      simp only [inputBounded, Bool.and_eq_true] at hb
      have ihl := ih l (by simp at hi; omega) st hst hb.1.2
      have ihr := ih r (by simp at hi; omega) st hst hb.2
      simp only [analyzeInputBlock]
      repeat first
        | apply or_bounded
        | apply ite_bounded
        | decide
    | opDivide t l r =>
      simp only [inputBounded, Bool.and_eq_true] at hb
      have ihl := ih l (by simp at hi; omega) st hst hb.1.2
      have ihr := ih r (by simp at hi; omega) st hst hb.2
      simp only [analyzeInputBlock]
      repeat first
        | apply or_bounded
        | apply ite_bounded
        | decide
    | other t cs =>
      simp only [inputBounded] at hb
      simp only [analyzeInputBlock, IInput.type]
      exact of_decide_eq_true hb

/-- The empty state has unique keys. -/
theorem KeysNodup_nil : KeysNodup ([] : TypeState) := by
  simp [KeysNodup, tsKeys]

/-- The empty state is bounded. -/
theorem tsBounded_nil : tsBounded ([] : TypeState) := by
  intro e he
  simp at he

/-- `setVariableType` preserves state well-formedness and adds at most the
assigned name. -/
theorem setVariableType_spec (st : TypeState) (name : String) (ty : Nat)
    (hn : KeysNodup st) (hb : tsBounded st) (hty : ty &&& InputType.ANY = ty) :
    KeysNodup (setVariableType st name ty).1 ∧
    tsBounded (setVariableType st name ty).1 ∧
    (∀ k ∈ tsKeys (setVariableType st name ty).1, k ∈ tsKeys st ∨ k = name) := by
  unfold setVariableType
  split
  · exact ⟨hn, hb, fun k hk => Or.inl hk⟩
  · refine ⟨KeysNodup_tsSet _ _ hn, tsBounded_tsSet hty _ hb, ?_⟩
    intro k hk
    by_cases hm : name ∈ tsKeys st
    · rw [tsKeys_tsSet_mem _ hm] at hk
      exact Or.inl hk
    · rw [tsKeys_tsSet_not_mem _ hm] at hk
      rcases List.mem_append.mp hk with hk | hk
      · exact Or.inl hk
      · exact Or.inr (List.mem_singleton.mp hk)

/-- A block's size in terms of its opcode. -/
theorem blockSize_eq (b : StackBlock) : blockSize b = 1 + opSize b.op := by
  cases b; rfl

/-- A block's assignable variables in terms of its opcode. -/
theorem blockVars_eq (b : StackBlock) : blockVars b = opVars b.op := by
  cases b; rfl

/-- A block's boundedness in terms of its opcode. -/
theorem blockBounded_eq (b : StackBlock) : blockBounded b = opBounded b.op := by
  cases b; rfl

/-- Annotation writes keep the opcode. -/
theorem withExit_op (b : StackBlock) (x : Option TypeState) :
    (b.withExit x).op = b.op := by
  cases b; rfl

/-- Annotation writes keep the opcode. -/
theorem withEntry_op (b : StackBlock) (x : Option TypeState) :
    (b.withEntry x).op = b.op := by
  cases b; rfl

/-- Annotation writes keep the yields flag. -/
theorem withExit_yields (b : StackBlock) (x : Option TypeState) :
    (b.withExit x).yields = b.yields := by
  cases b; rfl

/-- Annotation writes keep the yields flag. -/
theorem withEntry_yields (b : StackBlock) (x : Option TypeState) :
    (b.withEntry x).yields = b.yields := by
  cases b; rfl

/-- Annotation writes preserve the whole block structure. -/
theorem BlockPres_withExit {b0 b : StackBlock} (x : Option TypeState)
    (h : BlockPres b0 b) : BlockPres b0 (b.withExit x) := by
  obtain ⟨h1, h2, h3, h4⟩ := h
  refine ⟨?_, ?_, ?_, ?_⟩
  · rw [blockSize_eq, withExit_op, ← blockSize_eq, h1]
  · rw [blockVars_eq, withExit_op, ← blockVars_eq, h2]
  · rw [blockBounded_eq, withExit_op, ← blockBounded_eq, h3]
  · rw [withExit_yields, h4]

/-- Annotation writes preserve the whole block structure. -/
theorem BlockPres_withEntry {b0 b : StackBlock} (x : Option TypeState)
    (h : BlockPres b0 b) : BlockPres b0 (b.withEntry x) := by
  obtain ⟨h1, h2, h3, h4⟩ := h
  refine ⟨?_, ?_, ?_, ?_⟩
  · rw [blockSize_eq, withEntry_op, ← blockSize_eq, h1]
  · rw [blockVars_eq, withEntry_op, ← blockVars_eq, h2]
  · rw [blockBounded_eq, withEntry_op, ← blockBounded_eq, h3]
  · rw [withEntry_yields, h4]

/-- Replacing the body of a loop block by a structure-preserved stack
preserves the whole block structure. -/
theorem BlockPres_withBody {b0 b : StackBlock} {stack stack2 : Stack}
    (hl : IsLoopOf b stack) (hs : StackPres stack stack2)
    (h : BlockPres b0 b) : BlockPres b0 (b.withBody stack2) := by
  obtain ⟨h1, h2, h3, h4⟩ := h
  obtain ⟨s1, s2, s3⟩ := hs
  cases b with
  | mk op y e x =>
    rcases hl with hl | hl | hl <;>
      (simp only [StackBlock.op] at hl; subst hl) <;>
      exact ⟨by simp only [StackBlock.withBody, blockSize, opSize] at h1 ⊢; omega,
        by simp only [StackBlock.withBody, blockVars, opVars] at h2 ⊢; rw [s2, h2],
        by simp only [StackBlock.withBody, blockBounded, opBounded] at h3 ⊢; rw [s3],
        by simp only [StackBlock.withBody, StackBlock.yields] at h4 ⊢; exact h4⟩

/-- The fuel-indexed analyzer functions all return `none` at fuel 0. -/
theorem analyzer_zero (b : StackBlock) (stack : Stack) (bs : List StackBlock)
    (st : TypeState) :
    analyzeStackBlock b st 0 = none ∧
    analyzeLoopedStack stack st b 0 = none ∧
    analyzeLoop stack st 0 = none ∧
    analyzeStack stack st 0 = none ∧
    analyzeBlocks bs st 0 = none ∧
    visitBlock b st 0 = none := by
  refine ⟨rfl, rfl, rfl, ?_, ?_, rfl⟩
  · cases stack; rfl
  · cases bs <;> rfl

/-- Preserving the loop shape under an entry annotation. -/
theorem IsLoopOf_withEntry {b : StackBlock} {stack : Stack} (e : Option TypeState)
    (h : IsLoopOf b stack) : IsLoopOf (b.withEntry e) stack := by
  unfold IsLoopOf at h ⊢
  rw [withEntry_op]
  exact h

/-- Preserving the loop shape under an exit annotation. -/
theorem IsLoopOf_withExit {b : StackBlock} {stack : Stack} (x : Option TypeState)
    (h : IsLoopOf b stack) : IsLoopOf (b.withExit x) stack := by
  unfold IsLoopOf at h ⊢
  rw [withExit_op]
  exact h

/-- A loop block over a bounded body is bounded. -/
theorem blockBounded_of_loop {b : StackBlock} {stack : Stack}
    (hl : IsLoopOf b stack) (hsb : stackBounded stack = true) :
    blockBounded b = true := by
  rw [blockBounded_eq]
  rcases hl with hl | hl | hl <;> rw [hl] <;> simpa [opBounded] using hsb

/-- Well-formedness preservation of the whole analyzer family: on
well-formed inputs every successful run returns a well-formed state whose
keys come from the input state or the analyzed code's assigned variables,
and rewrites the analyzed code structure-preservingly. -/
theorem pres_all : ∀ fuel : Nat,
    (∀ b st b' st' m, analyzeStackBlock b st fuel = some (b', st', m) →
      blockBounded b = true → KeysNodup st → tsBounded st →
      StatePres st st' (blockVars b) ∧ BlockPres b b') ∧
    (∀ stack st b b' st' m, analyzeLoopedStack stack st b fuel = some (b', st', m) →
      IsLoopOf b stack → stackBounded stack = true → KeysNodup st → tsBounded st →
      StatePres st st' (stackVars stack) ∧ BlockPres b b') ∧
    (∀ stack st stack' st' m, analyzeLoop stack st fuel = some (stack', st', m) →
      stackBounded stack = true → KeysNodup st → tsBounded st →
      StatePres st st' (stackVars stack) ∧ StackPres stack stack') ∧
    (∀ stack st stack' st' m, analyzeStack stack st fuel = some (stack', st', m) →
      stackBounded stack = true → KeysNodup st → tsBounded st →
      StatePres st st' (stackVars stack) ∧ StackPres stack stack') ∧
    (∀ bs st bs' st' m, analyzeBlocks bs st fuel = some (bs', st', m) →
      blocksBounded bs = true → KeysNodup st → tsBounded st →
      StatePres st st' (blocksVars bs) ∧ BlocksPres bs bs') ∧
    (∀ b st b' st' m, visitBlock b st fuel = some (b', st', m) →
      blockBounded b = true → KeysNodup st → tsBounded st →
      StatePres st st' (blockVars b) ∧ BlockPres b b') := by
  intro fuel
  induction fuel with
  | zero =>
    refine ⟨fun b st b' st' m h => ?_, fun stack st b b' st' m h => ?_,
      fun stack st stack' st' m h => ?_, fun stack st stack' st' m h => ?_,
      fun bs st bs' st' m h => ?_, fun b st b' st' m h => ?_⟩
    · exact absurd h (by rw [(analyzer_zero b (.mk []) [] st).1]; simp)
    · exact absurd h (by rw [(analyzer_zero b stack [] st).2.1]; simp)
    · exact absurd h (by rw [(analyzer_zero (.mk .otherBlock false none none) stack [] st).2.2.1]; simp)
    · exact absurd h (by rw [(analyzer_zero (.mk .otherBlock false none none) stack [] st).2.2.2.1]; simp)
    · exact absurd h (by rw [(analyzer_zero (.mk .otherBlock false none none) (.mk []) bs st).2.2.2.2.1]; simp)
    · exact absurd h (by rw [(analyzer_zero b (.mk []) [] st).2.2.2.2.2]; simp)
  | succ fuel ih =>
    obtain ⟨ihB, ihLp, ihL, ihS, ihBs, ihV⟩ := ih
    refine ⟨?_, ?_, ?_, ?_, ?_, ?_⟩
    -- analyzeStackBlock
    · intro b st b' st' m h hb hn hbs
      cases b with
      | mk op y es xs =>
        cases op with
        | varSet name value =>
          simp only [analyzeStackBlock, Option.some.injEq, Prod.mk.injEq] at h
          obtain ⟨rfl, rfl, rfl⟩ := h
          simp only [blockBounded, opBounded] at hb
          have hty := analyze_bounded (sizeOf value) value le_rfl st hbs hb
          have hset := setVariableType_spec st name _ hn hbs hty
          refine ⟨⟨hset.1, hset.2.1, ?_⟩, rfl, rfl, ?_, rfl⟩
          · intro k hk
            rcases hset.2.2 k hk with hk | hk
            · exact Or.inl hk
            · right
              simp [blockVars, opVars, hk]
          · simp [blockBounded, opBounded, hb]
        | controlWhile body =>
          simp only [analyzeStackBlock] at h
          simp only [blockBounded, opBounded] at hb
          have hres := ihLp body st _ b' st' m h (Or.inl rfl) hb hn hbs
          refine ⟨⟨hres.1.1, hres.1.2.1, ?_⟩, hres.2⟩
          intro k hk
          rcases hres.1.2.2 k hk with hk | hk
          · exact Or.inl hk
          · right
            simpa [blockVars, opVars] using hk
        | controlFor body =>
          simp only [analyzeStackBlock] at h
          simp only [blockBounded, opBounded] at hb
          have hres := ihLp body st _ b' st' m h (Or.inr (Or.inl rfl)) hb hn hbs
          refine ⟨⟨hres.1.1, hres.1.2.1, ?_⟩, hres.2⟩
          intro k hk
          rcases hres.1.2.2 k hk with hk | hk
          · exact Or.inl hk
          · right
            simpa [blockVars, opVars] using hk
        | controlRepeat body =>
          simp only [analyzeStackBlock] at h
          simp only [blockBounded, opBounded] at hb
          have hres := ihLp body st _ b' st' m h (Or.inr (Or.inr rfl)) hb hn hbs
          refine ⟨⟨hres.1.1, hres.1.2.1, ?_⟩, hres.2⟩
          intro k hk
          rcases hres.1.2.2 k hk with hk | hk
          · exact Or.inl hk
          · right
            simpa [blockVars, opVars] using hk
        | controlIfElse wt wf =>
          simp only [analyzeStackBlock] at h
          simp only [blockBounded, opBounded, Bool.and_eq_true] at hb
          cases h1 : analyzeStack wt st fuel with
          | none => rw [h1] at h; simp at h
          | some p =>
            obtain ⟨wt2, ts, m0⟩ := p
            rw [h1] at h
            cases h2 : analyzeStack wf st fuel with
            | none => rw [h2] at h; simp at h
            | some q =>
              obtain ⟨wf2, s1, m1⟩ := q
              rw [h2] at h
              simp only [Option.bind_eq_bind, Option.some_bind] at h
              have hwt := ihS wt st wt2 ts m0 h1 hb.1 hn hbs
              have hwf := ihS wf st wf2 s1 m1 h2 hb.2 hn hbs
              have hbp : BlockPres (StackBlock.mk (.controlIfElse wt wf) y es xs)
                  (StackBlock.mk (.controlIfElse wt2 wf2) y es xs) := by
                refine ⟨?_, ?_, ?_, rfl⟩
                · simp only [blockSize, opSize]
                  rw [hwt.2.1, hwf.2.1]
                · simp only [blockVars, opVars]
                  rw [hwt.2.2.1, hwf.2.2.1]
                · simp only [blockBounded, opBounded]
                  rw [hwt.2.2.2, hwf.2.2.2]
                  rfl
              by_cases hm1 : m1 = true
              · rw [if_pos hm1] at h
                simp only [Option.some.injEq, Prod.mk.injEq] at h
                obtain ⟨rfl, rfl, rfl⟩ := h
                refine ⟨⟨hwf.1.1, hwf.1.2.1, ?_⟩, hbp⟩
                intro k hk
                rcases hwf.1.2.2 k hk with hk | hk
                · exact Or.inl hk
                · right
                  simp only [blockVars, opVars]
                  exact List.mem_append.mpr (Or.inr hk)
              · rw [if_neg hm1] at h
                simp only [Option.some.injEq, Prod.mk.injEq] at h
                obtain ⟨rfl, rfl, rfl⟩ := h
                have htor := tsOr_spec s1 ts hwf.1.1 hwf.1.2.1 hwt.1.2.1
                refine ⟨⟨htor.1, htor.2.1, ?_⟩, hbp⟩
                intro k hk
                rcases htor.2.2.1 k hk with hk | hk
                · rcases hwf.1.2.2 k hk with hk | hk
                  · exact Or.inl hk
                  · right
                    simp only [blockVars, opVars]
                    exact List.mem_append.mpr (Or.inr hk)
                · rcases hwt.1.2.2 k hk with hk | hk
                  · exact Or.inl hk
                  · right
                    simp only [blockVars, opVars]
                    exact List.mem_append.mpr (Or.inl hk)
        | procedureCall c v a =>
          simp only [analyzeStackBlock, Option.some.injEq, Prod.mk.injEq] at h
          obtain ⟨rfl, rfl, rfl⟩ := h
          refine ⟨⟨KeysNodup_nil, tsBounded_nil, ?_⟩, rfl, rfl, hb, rfl⟩
          intro k hk
          simp [tsClear, tsKeys] at hk
        | addonCall c bi a =>
          simp only [analyzeStackBlock, Option.some.injEq, Prod.mk.injEq] at h
          obtain ⟨rfl, rfl, rfl⟩ := h
          exact ⟨⟨hn, hbs, fun k hk => Or.inl hk⟩, rfl, rfl, hb, rfl⟩
        | compatCall o i f =>
          simp only [analyzeStackBlock, Option.some.injEq, Prod.mk.injEq] at h
          obtain ⟨rfl, rfl, rfl⟩ := h
          exact ⟨⟨hn, hbs, fun k hk => Or.inl hk⟩, rfl, rfl, hb, rfl⟩
        | broadcastAndWait i =>
          simp only [analyzeStackBlock, Option.some.injEq, Prod.mk.injEq] at h
          obtain ⟨rfl, rfl, rfl⟩ := h
          exact ⟨⟨hn, hbs, fun k hk => Or.inl hk⟩, rfl, rfl, hb, rfl⟩
        | stopAll =>
          simp only [analyzeStackBlock, Option.some.injEq, Prod.mk.injEq] at h
          obtain ⟨rfl, rfl, rfl⟩ := h
          exact ⟨⟨hn, hbs, fun k hk => Or.inl hk⟩, rfl, rfl, hb, rfl⟩
        | stopScript =>
          simp only [analyzeStackBlock, Option.some.injEq, Prod.mk.injEq] at h
          obtain ⟨rfl, rfl, rfl⟩ := h
          exact ⟨⟨hn, hbs, fun k hk => Or.inl hk⟩, rfl, rfl, hb, rfl⟩
        | otherBlock =>
          simp only [analyzeStackBlock, Option.some.injEq, Prod.mk.injEq] at h
          obtain ⟨rfl, rfl, rfl⟩ := h
          exact ⟨⟨hn, hbs, fun k hk => Or.inl hk⟩, rfl, rfl, hb, rfl⟩
    -- analyzeLoopedStack
    · intro stack st b b' st' m h hl hsb hn hbs
      have hbb : blockBounded b = true := blockBounded_of_loop hl hsb
      simp only [analyzeLoopedStack, tsClear] at h
      by_cases hy : b.yields = true
      · rw [if_pos hy] at h
        cases h1 : analyzeStack stack [] fuel with
        | none => rw [h1] at h; simp at h
        | some p =>
          obtain ⟨stack3, s2, m2⟩ := p
          rw [h1] at h
          simp only [Option.bind_eq_bind, Option.some_bind, Option.some.injEq,
            Prod.mk.injEq] at h
          obtain ⟨rfl, rfl, rfl⟩ := h
          have hres := ihS stack [] stack3 s2 m2 h1 hsb KeysNodup_nil tsBounded_nil
          refine ⟨⟨hres.1.1, hres.1.2.1, ?_⟩, ?_⟩
          · intro k hk
            rcases hres.1.2.2 k hk with hk | hk
            · simp [tsKeys] at hk
            · exact Or.inr hk
          · exact BlockPres_withBody
              (IsLoopOf_withExit _ (IsLoopOf_withEntry _ hl)) hres.2
              (BlockPres_withExit _ (BlockPres_withEntry _ ⟨rfl, rfl, hbb, rfl⟩))
      · rw [if_neg hy] at h
        cases h1 : analyzeLoop stack st fuel with
        | none => rw [h1] at h; simp at h
        | some p =>
          obtain ⟨stack2, state2, lastOr⟩ := p
          rw [h1] at h
          simp only [Option.bind_eq_bind, Option.some_bind, Option.some.injEq,
            Prod.mk.injEq] at h
          obtain ⟨rfl, rfl, rfl⟩ := h
          have hres := ihL stack st stack2 state2 lastOr h1 hsb hn hbs
          refine ⟨hres.1, ?_⟩
          exact BlockPres_withEntry _
            (BlockPres_withBody hl hres.2 ⟨rfl, rfl, hbb, rfl⟩)
    -- analyzeLoop
    · intro stack st stack' st' m h hsb hn hbs
      simp only [analyzeLoop] at h
      cases h1 : analyzeStack stack st fuel with
      | none => rw [h1] at h; simp at h
      | some p =>
        obtain ⟨stack2, ns, m0⟩ := p
        rw [h1] at h
        simp only [Option.bind_eq_bind, Option.some_bind] at h
        have hres := ihS stack st stack2 ns m0 h1 hsb hn hbs
        have htor := tsOr_spec st ns hn hbs hres.1.2.1
        have hkeys : ∀ k ∈ tsKeys (tsOr st ns).1,
            k ∈ tsKeys st ∨ k ∈ stackVars stack := by
          intro k hk
          rcases htor.2.2.1 k hk with hk | hk
          · exact Or.inl hk
          · exact hres.1.2.2 k hk
        by_cases hsk : (tsOr st ns).2 = true
        · rw [if_pos hsk] at h
          have hrec := ihL stack2 (tsOr st ns).1 stack' st' m h
            hres.2.2.2 htor.1 htor.2.1
          refine ⟨⟨hrec.1.1, hrec.1.2.1, ?_⟩,
            hrec.2.1.trans hres.2.1, hrec.2.2.1.trans hres.2.2.1, hrec.2.2.2⟩
          intro k hk
          rcases hrec.1.2.2 k hk with hk | hk
          · exact hkeys k hk
          · rw [hres.2.2.1] at hk
            exact Or.inr hk
        · rw [if_neg hsk] at h
          simp only [Option.some.injEq, Prod.mk.injEq] at h
          obtain ⟨rfl, rfl, rfl⟩ := h
          exact ⟨⟨htor.1, htor.2.1, hkeys⟩, hres.2⟩
    -- analyzeStack
    · intro stack st stack' st' m h hsb hn hbs
      cases stack with
      | mk blocks =>
        simp only [analyzeStack] at h
        cases h1 : analyzeBlocks blocks st fuel with
        | none => rw [h1] at h; simp at h
        | some p =>
          obtain ⟨bs2, s2, m2⟩ := p
          rw [h1] at h
          simp only [Option.bind_eq_bind, Option.some_bind, Option.some.injEq,
            Prod.mk.injEq] at h
          obtain ⟨rfl, rfl, rfl⟩ := h
          have hres := ihBs blocks st bs2 s2 m2 h1
            (by simpa [stackBounded] using hsb) hn hbs
          refine ⟨⟨hres.1.1, hres.1.2.1, ?_⟩, ?_, ?_, ?_⟩
          · intro k hk
            rcases hres.1.2.2 k hk with hk | hk
            · exact Or.inl hk
            · right
              simpa [stackVars] using hk
          · simp only [stackSize]
            rw [hres.2.1]
          · simp only [stackVars]
            rw [hres.2.2.1]
          · simp only [stackBounded]
            rw [hres.2.2.2]
    -- analyzeBlocks
    · intro bs st bs' st' m h hbb hn hbs
      cases bs with
      | nil =>
        simp only [analyzeBlocks, Option.some.injEq, Prod.mk.injEq] at h
        obtain ⟨rfl, rfl, rfl⟩ := h
        exact ⟨⟨hn, hbs, fun k hk => Or.inl hk⟩, rfl, rfl, rfl⟩
      | cons blk rest =>
        simp only [analyzeBlocks] at h
        simp only [blocksBounded, Bool.and_eq_true] at hbb
        cases h1 : visitBlock blk st fuel with
        | none => rw [h1] at h; simp at h
        | some p =>
          obtain ⟨b2, s1, ch⟩ := p
          rw [h1] at h
          simp only [Option.bind_eq_bind, Option.some_bind] at h
          cases h2 : analyzeBlocks rest s1 fuel with
          | none => rw [h2] at h; simp at h
          | some q =>
            obtain ⟨bs2, s2, m2⟩ := q
            rw [h2] at h
            simp only [Option.bind_eq_bind, Option.some_bind, Option.some.injEq,
              Prod.mk.injEq] at h
            obtain ⟨rfl, rfl, rfl⟩ := h
            have hv := ihV blk st b2 s1 ch h1 hbb.1 hn hbs
            have hr := ihBs rest s1 bs2 s2 m2 h2 hbb.2 hv.1.1 hv.1.2.1
            refine ⟨⟨hr.1.1, hr.1.2.1, ?_⟩, ?_, ?_, ?_⟩
            · intro k hk
              rcases hr.1.2.2 k hk with hk | hk
              · rcases hv.1.2.2 k hk with hk | hk
                · exact Or.inl hk
                · right
                  simp only [blocksVars]
                  exact List.mem_append.mpr (Or.inl hk)
              · right
                simp only [blocksVars]
                exact List.mem_append.mpr (Or.inr hk)
            · simp only [blocksSize]
              rw [hv.2.1, hr.2.1]
            · simp only [blocksVars]
              rw [hv.2.2.1, hr.2.2.1]
            · simp [blocksBounded, hv.2.2.2.1, hr.2.2.2]
    -- visitBlock
    · intro b st b' st' m h hb hn hbs
      simp only [visitBlock] at h
      cases h1 : analyzeStackBlock b st fuel with
      | none => rw [h1] at h; simp at h
      | some p =>
        obtain ⟨b1, s1, ch⟩ := p
        rw [h1] at h
        simp only [Option.bind_eq_bind, Option.some_bind] at h
        have hres := ihB b st b1 s1 ch h1 hb hn hbs
        have hnilpres : StatePres st ([] : TypeState) (blockVars b) :=
          ⟨KeysNodup_nil, tsBounded_nil, fun k hk => by simp [tsKeys] at hk⟩
        by_cases hy : b1.yields = true
        · rw [if_pos hy] at h
          by_cases hch : ch = true
          · rw [if_pos hch] at h
            simp only [tsClear] at h
            cases h3 : b1.exitState with
            | none =>
              rw [h3] at h
              simp only [Option.some.injEq, Prod.mk.injEq] at h
              obtain ⟨rfl, rfl, rfl⟩ := h
              exact ⟨hres.1, BlockPres_withExit _ hres.2⟩
            | some e =>
              rw [h3] at h
              simp only [Option.some.injEq, Prod.mk.injEq] at h
              obtain ⟨rfl, rfl, rfl⟩ := h
              exact ⟨hres.1, BlockPres_withExit _ hres.2⟩
          · rw [if_neg hch] at h
            simp only [tsClear] at h
            by_cases ha : (s1.any fun e => decide (e.2 ≠ InputType.ANY)) = true
            · rw [if_pos ha] at h
              cases h3 : b1.exitState with
              | none =>
                rw [h3] at h
                simp only [Option.some.injEq, Prod.mk.injEq] at h
                obtain ⟨rfl, rfl, rfl⟩ := h
                exact ⟨hnilpres, BlockPres_withExit _ hres.2⟩
              | some e =>
                rw [h3] at h
                simp only [Option.some.injEq, Prod.mk.injEq] at h
                obtain ⟨rfl, rfl, rfl⟩ := h
                exact ⟨hnilpres, BlockPres_withExit _ hres.2⟩
            · rw [if_neg ha] at h
              simp only [Option.some.injEq, Prod.mk.injEq] at h
              obtain ⟨rfl, rfl, rfl⟩ := h
              exact ⟨hnilpres, hres.2⟩
        · rw [if_neg hy] at h
          by_cases hch : ch = true
          · rw [if_pos hch] at h
            cases h3 : b1.exitState with
            | none =>
              rw [h3] at h
              simp only [Option.some.injEq, Prod.mk.injEq] at h
              obtain ⟨rfl, rfl, rfl⟩ := h
              exact ⟨hres.1, BlockPres_withExit _ hres.2⟩
            | some e =>
              rw [h3] at h
              simp only [Option.some.injEq, Prod.mk.injEq] at h
              obtain ⟨rfl, rfl, rfl⟩ := h
              exact ⟨hres.1, BlockPres_withExit _ hres.2⟩
          · rw [if_neg hch] at h
            simp only [Option.some.injEq, Prod.mk.injEq] at h
            obtain ⟨rfl, rfl, rfl⟩ := h
            exact ⟨hres.1, hres.2⟩

/-- One-step fuel monotonicity of the analyzer family: a successful run
stays successful, with the same result, when one unit of fuel is added. -/
theorem mono_all : ∀ fuel : Nat,
    (∀ b st r, analyzeStackBlock b st fuel = some r →
      analyzeStackBlock b st (fuel+1) = some r) ∧
    (∀ stack st b r, analyzeLoopedStack stack st b fuel = some r →
      analyzeLoopedStack stack st b (fuel+1) = some r) ∧
    (∀ stack st r, analyzeLoop stack st fuel = some r →
      analyzeLoop stack st (fuel+1) = some r) ∧
    (∀ stack st r, analyzeStack stack st fuel = some r →
      analyzeStack stack st (fuel+1) = some r) ∧
    (∀ bs st r, analyzeBlocks bs st fuel = some r →
      analyzeBlocks bs st (fuel+1) = some r) ∧
    (∀ b st r, visitBlock b st fuel = some r →
      visitBlock b st (fuel+1) = some r) := by
  intro fuel
  induction fuel with
  | zero =>
    refine ⟨fun b st r h => ?_, fun stack st b r h => ?_, fun stack st r h => ?_,
      fun stack st r h => ?_, fun bs st r h => ?_, fun b st r h => ?_⟩
    · exact absurd h (by rw [(analyzer_zero b (.mk []) [] st).1]; simp)
    · exact absurd h (by rw [(analyzer_zero b stack [] st).2.1]; simp)
    · exact absurd h (by rw [(analyzer_zero (.mk .otherBlock false none none) stack [] st).2.2.1]; simp)
    · exact absurd h (by rw [(analyzer_zero (.mk .otherBlock false none none) stack [] st).2.2.2.1]; simp)
    · exact absurd h (by rw [(analyzer_zero (.mk .otherBlock false none none) (.mk []) bs st).2.2.2.2.1]; simp)
    · exact absurd h (by rw [(analyzer_zero b (.mk []) [] st).2.2.2.2.2]; simp)
  | succ fuel ih =>
    obtain ⟨ihB, ihLp, ihL, ihS, ihBs, ihV⟩ := ih
    refine ⟨?_, ?_, ?_, ?_, ?_, ?_⟩
    -- analyzeStackBlock
    · intro b st r h
      cases b with
      | mk op y es xs =>
        cases op with
        | varSet name value => exact h
        | controlWhile body =>
          simp only [analyzeStackBlock] at h ⊢
          exact ihLp _ _ _ _ h
        | controlFor body =>
          simp only [analyzeStackBlock] at h ⊢
          exact ihLp _ _ _ _ h
        | controlRepeat body =>
          simp only [analyzeStackBlock] at h ⊢
          exact ihLp _ _ _ _ h
        | controlIfElse wt wf =>
          simp only [analyzeStackBlock] at h ⊢
          cases h1 : analyzeStack wt st fuel with
          | none => rw [h1] at h; simp at h
          | some p =>
            rw [h1] at h
            rw [ihS _ _ _ h1]
            cases h2 : analyzeStack wf st fuel with
            | none => rw [h2] at h; simp at h
            | some q =>
              rw [h2] at h
              rw [ihS _ _ _ h2]
              exact h
        | procedureCall c v a => exact h
        | addonCall c bi a => exact h
        | compatCall o i f => exact h
        | broadcastAndWait i => exact h
        | stopAll => exact h
        | stopScript => exact h
        | otherBlock => exact h
    -- analyzeLoopedStack
    · intro stack st b r h
      simp only [analyzeLoopedStack] at h ⊢
      by_cases hy : b.yields = true
      · rw [if_pos hy] at h ⊢
        cases h1 : analyzeStack stack (tsClear st).1 fuel with
        | none => rw [h1] at h; simp at h
        | some p =>
          rw [h1] at h
          rw [ihS _ _ _ h1]
          exact h
      · rw [if_neg hy] at h ⊢
        cases h1 : analyzeLoop stack st fuel with
        | none => rw [h1] at h; simp at h
        | some p =>
          rw [h1] at h
          rw [ihL _ _ _ h1]
          exact h
    -- analyzeLoop
    · intro stack st r h
      simp only [analyzeLoop] at h ⊢
      cases h1 : analyzeStack stack st fuel with
      | none => rw [h1] at h; simp at h
      | some p =>
        obtain ⟨stack2, ns, m0⟩ := p
        rw [h1] at h
        rw [ihS _ _ _ h1]
        simp only [Option.bind_eq_bind, Option.some_bind] at h ⊢
        by_cases hsk : (tsOr st ns).2 = true
        · rw [if_pos hsk] at h ⊢
          exact ihL _ _ _ h
        · rw [if_neg hsk] at h ⊢
          exact h
    -- analyzeStack
    · intro stack st r h
      cases stack with
      | mk blocks =>
        simp only [analyzeStack] at h ⊢
        cases h1 : analyzeBlocks blocks st fuel with
        | none => rw [h1] at h; simp at h
        | some p =>
          rw [h1] at h
          rw [ihBs _ _ _ h1]
          exact h
    -- analyzeBlocks
    · intro bs st r h
      cases bs with
      | nil => exact h
      | cons blk rest =>
        simp only [analyzeBlocks] at h ⊢
        cases h1 : visitBlock blk st fuel with
        | none => rw [h1] at h; simp at h
        | some p =>
          obtain ⟨b2, s1, ch⟩ := p
          rw [h1] at h
          rw [ihV _ _ _ h1]
          simp only [Option.bind_eq_bind, Option.some_bind] at h ⊢
          cases h2 : analyzeBlocks rest s1 fuel with
          | none => rw [h2] at h; simp at h
          | some q =>
            rw [h2] at h
            rw [ihBs _ _ _ h2]
            exact h
    -- visitBlock
    · intro b st r h
      simp only [visitBlock] at h ⊢
      cases h1 : analyzeStackBlock b st fuel with
      | none => rw [h1] at h; simp at h
      | some p =>
        rw [h1] at h
        rw [ihB _ _ _ h1]
        exact h

/-- Fuel monotonicity by an arbitrary amount. -/
theorem mono_add : ∀ (d fuel : Nat),
    (∀ b st r, analyzeStackBlock b st fuel = some r →
      analyzeStackBlock b st (fuel+d) = some r) ∧
    (∀ stack st b r, analyzeLoopedStack stack st b fuel = some r →
      analyzeLoopedStack stack st b (fuel+d) = some r) ∧
    (∀ stack st r, analyzeLoop stack st fuel = some r →
      analyzeLoop stack st (fuel+d) = some r) ∧
    (∀ stack st r, analyzeStack stack st fuel = some r →
      analyzeStack stack st (fuel+d) = some r) ∧
    (∀ bs st r, analyzeBlocks bs st fuel = some r →
      analyzeBlocks bs st (fuel+d) = some r) ∧
    (∀ b st r, visitBlock b st fuel = some r →
      visitBlock b st (fuel+d) = some r) := by
  intro d
  induction d with
  | zero =>
    exact fun fuel => ⟨fun _ _ _ h => h, fun _ _ _ _ h => h, fun _ _ _ h => h,
      fun _ _ _ h => h, fun _ _ _ h => h, fun _ _ _ h => h⟩
  | succ d ih =>
    intro fuel
    refine ⟨fun b st r h => ?_, fun stack st b r h => ?_, fun stack st r h => ?_,
      fun stack st r h => ?_, fun bs st r h => ?_, fun b st r h => ?_⟩
    · exact (mono_all (fuel+d)).1 _ _ _ ((ih fuel).1 _ _ _ h)
    · exact (mono_all (fuel+d)).2.1 _ _ _ _ ((ih fuel).2.1 _ _ _ _ h)
    · exact (mono_all (fuel+d)).2.2.1 _ _ _ ((ih fuel).2.2.1 _ _ _ h)
    · exact (mono_all (fuel+d)).2.2.2.1 _ _ _ ((ih fuel).2.2.2.1 _ _ _ h)
    · exact (mono_all (fuel+d)).2.2.2.2.1 _ _ _ ((ih fuel).2.2.2.2.1 _ _ _ h)
    · exact (mono_all (fuel+d)).2.2.2.2.2 _ _ _ ((ih fuel).2.2.2.2.2 _ _ _ h)

/-- Fuel monotonicity of `analyzeStack`, ≤ form. -/
theorem analyzeStack_mono {f f' : Nat} (hle : f ≤ f') {stack : Stack}
    {st : TypeState} {r : Stack × TypeState × Bool}
    (h : analyzeStack stack st f = some r) : analyzeStack stack st f' = some r := by
  have h2 := (mono_add (f' - f) f).2.2.2.1 stack st r h
  rwa [Nat.add_sub_cancel' hle] at h2

/-- Fuel monotonicity of `analyzeLoop`, ≤ form. -/
theorem analyzeLoop_mono {f f' : Nat} (hle : f ≤ f') {stack : Stack}
    {st : TypeState} {r : Stack × TypeState × Bool}
    (h : analyzeLoop stack st f = some r) : analyzeLoop stack st f' = some r := by
  have h2 := (mono_add (f' - f) f).2.2.1 stack st r h
  rwa [Nat.add_sub_cancel' hle] at h2

/-- Fuel monotonicity of `analyzeBlocks`, ≤ form. -/
theorem analyzeBlocks_mono {f f' : Nat} (hle : f ≤ f') {bs : List StackBlock}
    {st : TypeState} {r : List StackBlock × TypeState × Bool}
    (h : analyzeBlocks bs st f = some r) : analyzeBlocks bs st f' = some r := by
  have h2 := (mono_add (f' - f) f).2.2.2.2.1 bs st r h
  rwa [Nat.add_sub_cancel' hle] at h2

/-- Fuel monotonicity of `visitBlock`, ≤ form. -/
theorem visitBlock_mono {f f' : Nat} (hle : f ≤ f') {b : StackBlock}
    {st : TypeState} {r : StackBlock × TypeState × Bool}
    (h : visitBlock b st f = some r) : visitBlock b st f' = some r := by
  have h2 := (mono_add (f' - f) f).2.2.2.2.2 b st r h
  rwa [Nat.add_sub_cancel' hle] at h2

/-- Fuel monotonicity of `analyzeStackBlock`, ≤ form. -/
theorem analyzeStackBlock_mono {f f' : Nat} (hle : f ≤ f') {b : StackBlock}
    {st : TypeState} {r : StackBlock × TypeState × Bool}
    (h : analyzeStackBlock b st f = some r) :
    analyzeStackBlock b st f' = some r := by
  have h2 := (mono_add (f' - f) f).1 b st r h
  rwa [Nat.add_sub_cancel' hle] at h2

/-- A stack's size in terms of its block list. -/
theorem stackSize_eq (s : Stack) : stackSize s = 1 + blocksSize s.blocks := by
  cases s; rfl

/-- Opcode sizes are positive. -/
theorem opSize_pos (op : StackOpData) : 1 ≤ opSize op := by
  cases op <;> simp only [opSize] <;> omega

/-- A stack's boundedness in terms of its block list. -/
theorem stackBounded_eq (s : Stack) : stackBounded s = blocksBounded s.blocks := by
  cases s; rfl

/-- Wrapping a successful `analyzeBlocks` run into `analyzeStack`. -/
theorem analyzeStack_of_blocks {bs : List StackBlock} {st : TypeState} {f : Nat}
    {r : List StackBlock × TypeState × Bool} (h : analyzeBlocks bs st f = some r) :
    analyzeStack (.mk bs) st (f+1) = some (.mk r.1, r.2.1, r.2.2) := by
  simp only [analyzeStack, h, Option.bind_eq_bind, Option.some_bind]

/-- A successful `analyzeStackBlock` run makes the whole block visit
succeed: the clear-on-yield adjustment and the exit-state annotation are
total. -/
theorem visitBlock_total {b : StackBlock} {st : TypeState} {fuel : Nat}
    {r : StackBlock × TypeState × Bool}
    (h : analyzeStackBlock b st fuel = some r) :
    ∃ r2, visitBlock b st (fuel+1) = some r2 := by
  obtain ⟨b1, s1, ch⟩ := r
  simp only [visitBlock, h, Option.bind_eq_bind, Option.some_bind]
  split
  all_goals try split
  all_goals try split
  all_goals try split
  all_goals exact ⟨_, rfl⟩

/-- Totality of the analyzer: on well-formed, bounded inputs both the
per-block loop and the do-while fixed point of `analyzeLoop` succeed for
some fuel. The fixed point terminates because each `or`-reported change
strictly increases the bounded measure `Msum`. -/
theorem analyze_total : ∀ n : Nat,
    (∀ (bs : List StackBlock) (st : TypeState), blocksSize bs ≤ n →
      blocksBounded bs = true → KeysNodup st → tsBounded st →
      ∃ f r, analyzeBlocks bs st f = some r) ∧
    (∀ (stack : Stack) (st : TypeState), blocksSize stack.blocks ≤ n →
      stackBounded stack = true → KeysNodup st → tsBounded st →
      ∃ f r, analyzeLoop stack st f = some r) := by
  intro n
  induction n using Nat.strong_induction_on with
  | _ n ih =>
    have hTB : ∀ (bs : List StackBlock) (st : TypeState), blocksSize bs ≤ n →
        blocksBounded bs = true → KeysNodup st → tsBounded st →
        ∃ f r, analyzeBlocks bs st f = some r := by
      intro bs st hsize hbb hn hbs
      cases bs with
      | nil => exact ⟨1, ([], st, false), rfl⟩
      | cons blk rest =>
        simp only [blocksBounded, Bool.and_eq_true] at hbb
        have hsub : ∀ (s2 : Stack) (st2 : TypeState), blocksSize s2.blocks < n →
            stackBounded s2 = true → KeysNodup st2 → tsBounded st2 →
            ∃ f r, analyzeStack s2 st2 f = some r := by
          intro s2 st2 hlt hb2 hn2 hbs2
          obtain ⟨f, r, hf⟩ := (ih _ hlt).1 s2.blocks st2 le_rfl
            (by rw [← stackBounded_eq]; exact hb2) hn2 hbs2
          cases s2 with
          | mk blocks2 => exact ⟨f+1, _, analyzeStack_of_blocks hf⟩
        have hblk : ∃ f r, analyzeStackBlock blk st f = some r := by
          cases blk with
          | mk op y es xs =>
            simp only [blocksSize, blockSize] at hsize
            cases op with
            | varSet name value => exact ⟨1, _, rfl⟩
            | controlWhile body =>
              have hsb : stackBounded body = true := by
                simpa [blockBounded, opBounded] using hbb.1
              have hbd : blocksSize body.blocks < n := by
                have h5 := stackSize_eq body
                simp only [opSize] at hsize
                omega
              by_cases hy : y = true
              · obtain ⟨f, r, hf⟩ := hsub body [] hbd hsb KeysNodup_nil tsBounded_nil
                refine ⟨f+1+1, ?_⟩
                simp only [analyzeStackBlock]
                simp [analyzeLoopedStack, StackBlock.yields, hy, tsClear, hf]
              · obtain ⟨f, r, hf⟩ := (ih _ hbd).2 body st le_rfl hsb hn hbs
                refine ⟨f+1+1, ?_⟩
                simp only [analyzeStackBlock]
                simp [analyzeLoopedStack, StackBlock.yields, hy, hf]
            | controlFor body =>
              have hsb : stackBounded body = true := by
                simpa [blockBounded, opBounded] using hbb.1
              have hbd : blocksSize body.blocks < n := by
                have h5 := stackSize_eq body
                simp only [opSize] at hsize
                omega
              by_cases hy : y = true
              · obtain ⟨f, r, hf⟩ := hsub body [] hbd hsb KeysNodup_nil tsBounded_nil
                refine ⟨f+1+1, ?_⟩
                simp only [analyzeStackBlock]
                simp [analyzeLoopedStack, StackBlock.yields, hy, tsClear, hf]
              · obtain ⟨f, r, hf⟩ := (ih _ hbd).2 body st le_rfl hsb hn hbs
                refine ⟨f+1+1, ?_⟩
                simp only [analyzeStackBlock]
                simp [analyzeLoopedStack, StackBlock.yields, hy, hf]
            | controlRepeat body =>
              have hsb : stackBounded body = true := by
                simpa [blockBounded, opBounded] using hbb.1
              have hbd : blocksSize body.blocks < n := by
                have h5 := stackSize_eq body
                simp only [opSize] at hsize
                omega
              by_cases hy : y = true
              · obtain ⟨f, r, hf⟩ := hsub body [] hbd hsb KeysNodup_nil tsBounded_nil
                refine ⟨f+1+1, ?_⟩
                simp only [analyzeStackBlock]
                simp [analyzeLoopedStack, StackBlock.yields, hy, tsClear, hf]
              · obtain ⟨f, r, hf⟩ := (ih _ hbd).2 body st le_rfl hsb hn hbs
                refine ⟨f+1+1, ?_⟩
                simp only [analyzeStackBlock]
                simp [analyzeLoopedStack, StackBlock.yields, hy, hf]
            | controlIfElse wt wf =>
              have hsb := hbb.1
              simp only [blockBounded, opBounded, Bool.and_eq_true] at hsb
              have hb1 : blocksSize wt.blocks < n := by
                have h5 := stackSize_eq wt
                have h6 := stackSize_eq wf
                simp only [opSize] at hsize
                omega
              have hb2 : blocksSize wf.blocks < n := by
                have h5 := stackSize_eq wt
                have h6 := stackSize_eq wf
                simp only [opSize] at hsize
                omega
              obtain ⟨f1, r1, h1⟩ := hsub wt st hb1 hsb.1 hn hbs
              obtain ⟨f2, r2, h2⟩ := hsub wf st hb2 hsb.2 hn hbs
              have h1' := analyzeStack_mono (le_max_left f1 f2) h1
              have h2' := analyzeStack_mono (le_max_right f1 f2) h2
              by_cases hm : r2.2.2 = true
              · refine ⟨max f1 f2 + 1, ?_⟩
                simp [analyzeStackBlock, h1', h2', hm]
              · refine ⟨max f1 f2 + 1, ?_⟩
                simp [analyzeStackBlock, h1', h2', hm]
            | procedureCall c v a => exact ⟨1, _, rfl⟩
            | addonCall c bi a => exact ⟨1, _, rfl⟩
            | compatCall o i f => exact ⟨1, _, rfl⟩
            | broadcastAndWait i => exact ⟨1, _, rfl⟩
            | stopAll => exact ⟨1, _, rfl⟩
            | stopScript => exact ⟨1, _, rfl⟩
            | otherBlock => exact ⟨1, _, rfl⟩
        obtain ⟨fB, rB, hB⟩ := hblk
        obtain ⟨rv, hv⟩ := visitBlock_total hB
        obtain ⟨bv, sv, chv⟩ := rv
        have hvp := (pres_all (fB+1)).2.2.2.2.2 blk st bv sv chv hv hbb.1 hn hbs
        have hlt : blocksSize rest < n := by
          have h2 := opSize_pos blk.op
          have h3 : blocksSize (blk :: rest) = blockSize blk + blocksSize rest := rfl
          have h4 := blockSize_eq blk
          omega
        obtain ⟨fR, rR, hR⟩ := (ih _ hlt).1 rest sv le_rfl hbb.2 hvp.1.1 hvp.1.2.1
        refine ⟨max (fB+1) fR + 1, (bv :: rR.1, rR.2.1, chv || rR.2.2), ?_⟩
        have hv' := visitBlock_mono (le_max_left (fB+1) fR) hv
        have hR' := analyzeBlocks_mono (le_max_right (fB+1) fR) hR
        simp only [analyzeBlocks, hv', hR', Option.bind_eq_bind, Option.some_bind]
    have hTL : ∀ (stack : Stack) (st : TypeState), blocksSize stack.blocks ≤ n →
        stackBounded stack = true → KeysNodup st → tsBounded st →
        ∃ f r, analyzeLoop stack st f = some r := by
      intro stack0 st0 hsize0 hsb0 hn0 hbs0
      have hstack : ∀ (s2 : Stack) (st2 : TypeState), blocksSize s2.blocks ≤ n →
          stackBounded s2 = true → KeysNodup st2 → tsBounded st2 →
          ∃ f r, analyzeStack s2 st2 f = some r := by
        intro s2 st2 hle hb2 hn2 hbs2
        obtain ⟨f, r, hf⟩ := hTB s2.blocks st2 hle
          (by rw [← stackBounded_eq]; exact hb2) hn2 hbs2
        cases s2 with
        | mk blocks2 => exact ⟨f+1, _, analyzeStack_of_blocks hf⟩
      have hgap : ∀ (g : Nat) (s2 : Stack) (st2 : TypeState),
          blocksSize s2.blocks = blocksSize stack0.blocks →
          stackVars s2 = stackVars stack0 →
          stackBounded s2 = true → KeysNodup st2 → tsBounded st2 →
          (∀ k ∈ tsKeys st2, k ∈ tsKeys st0 ++ stackVars stack0) →
          (tsKeys st0 ++ stackVars stack0).toFinset.card * InputType.ANY + 1 ≤
            Msum st2 + g →
          ∃ f r, analyzeLoop s2 st2 f = some r := by
        intro g
        induction g with
        | zero =>
          intro s2 st2 _ _ _ hn2 hbs2 hkeys hg
          have hle := Msum_le_card hn2 hbs2 hkeys
          exact absurd hg (by omega)
        | succ g ihg =>
          intro s2 st2 hsz hvars hb2 hn2 hbs2 hkeys hg
          obtain ⟨f1, r1, h1⟩ := hstack s2 st2 (by rw [hsz]; exact hsize0) hb2 hn2 hbs2
          obtain ⟨s3, ns, m0⟩ := r1
          have hpres := (pres_all f1).2.2.2.1 s2 st2 s3 ns m0 h1 hb2 hn2 hbs2
          have htor := tsOr_spec st2 ns hn2 hbs2 hpres.1.2.1
          by_cases hsk : (tsOr st2 ns).2 = true
          · have hkeys2 : ∀ k ∈ tsKeys (tsOr st2 ns).1,
                k ∈ tsKeys st0 ++ stackVars stack0 := by
              intro k hk
              rcases htor.2.2.1 k hk with hk | hk
              · exact hkeys k hk
              · rcases hpres.1.2.2 k hk with hk | hk
                · exact hkeys k hk
                · rw [hvars] at hk
                  exact List.mem_append.mpr (Or.inr hk)
            have hstrict := htor.2.2.2.2 hsk
            have hsz3 : blocksSize s3.blocks = blocksSize stack0.blocks := by
              have h5 := stackSize_eq s2
              have h6 := stackSize_eq s3
              have h7 := hpres.2.1
              omega
            obtain ⟨f2, r2, h2⟩ := ihg s3 (tsOr st2 ns).1 hsz3
              (hpres.2.2.1.trans hvars) hpres.2.2.2 htor.1 htor.2.1 hkeys2
              (by omega)
            refine ⟨max f1 f2 + 1, r2, ?_⟩
            have h1' := analyzeStack_mono (le_max_left f1 f2) h1
            have h2' := analyzeLoop_mono (le_max_right f1 f2) h2
            simp only [analyzeLoop, h1', Option.bind_eq_bind, Option.some_bind]
            rw [if_pos hsk]
            exact h2'
          · refine ⟨f1 + 1, (s3, (tsOr st2 ns).1, (tsOr st2 ns).2), ?_⟩
            simp only [analyzeLoop, h1, Option.bind_eq_bind, Option.some_bind]
            rw [if_neg hsk]
      exact hgap ((tsKeys st0 ++ stackVars stack0).toFinset.card * InputType.ANY + 1)
        stack0 st0 rfl rfl hsb0 hn0 hbs0
        (fun k hk => List.mem_append.mpr (Or.inl hk)) (by omega)
    exact ⟨hTB, hTL⟩

/-- Writing the entry annotation stores it. -/
theorem withEntry_entryState (b : StackBlock) (e : Option TypeState) :
    (b.withEntry e).entryState = e := by
  cases b; rfl

/-- Writing the exit annotation keeps the entry annotation. -/
theorem withExit_entryState (b : StackBlock) (x : Option TypeState) :
    (b.withExit x).entryState = b.entryState := by
  cases b; rfl

/-- Writing the exit annotation stores it. -/
theorem withExit_exitState (b : StackBlock) (x : Option TypeState) :
    (b.withExit x).exitState = x := by
  cases b; rfl

/-- Replacing the body keeps the entry annotation. -/
theorem withBody_entryState (b : StackBlock) (s : Stack) :
    (b.withBody s).entryState = b.entryState := by
  cases b with
  | mk op y e x => cases op <;> rfl

/-- Replacing the body keeps the exit annotation. -/
theorem withBody_exitState (b : StackBlock) (s : Stack) :
    (b.withBody s).exitState = b.exitState := by
  cases b with
  | mk op y e x => cases op <;> rfl

/-- C6: the analyzer's loop fixed-point computation terminates. For a
non-yielding loop block over a bounded body and a well-formed state,
`analyzeLoopedStack` succeeds at some finite fuel: the do-while
`analyzeLoop` (copy the state, analyze the body, `state.or` the copy back,
repeat while `or` reports a change) iterates only finitely often, because
every per-variable lattice element is a finite bitset below ANY that only
grows under `or`. For a loop block whose yields flag is set the analyzer
instead clears the state, records the cleared state as the entry (and
exit) annotation, and analyzes the body exactly once on the cleared
state. -/
theorem c6_loop_fixed_point_terminates :
    (∀ (stack : Stack) (st : TypeState) (b : StackBlock),
      b.yields = false → stackBounded stack = true → KeysNodup st →
      tsBounded st →
      ∃ fuel, (analyzeLoopedStack stack st b fuel).isSome = true) ∧
    (∀ (stack : Stack) (st : TypeState) (b : StackBlock) (fuel : Nat)
      (stack2 : Stack) (s2 : TypeState) (m2 : Bool),
      b.yields = true →
      analyzeStack stack [] fuel = some (stack2, s2, m2) →
      ∃ b', analyzeLoopedStack stack st b (fuel+1) =
          some (b', s2, m2 || (tsClear st).2) ∧
        b'.entryState = some [] ∧ b'.exitState = some []) := by
  constructor
  · intro stack st b hy hsb hn hbs
    obtain ⟨f, r, hf⟩ :=
      (analyze_total (blocksSize stack.blocks)).2 stack st le_rfl hsb hn hbs
    refine ⟨f+1, ?_⟩
    obtain ⟨stack2, s2, lastOr⟩ := r
    simp [analyzeLoopedStack, hy, hf]
  · intro stack st b fuel stack2 s2 m2 hy hstack
    refine ⟨((b.withEntry (some [])).withExit (some [])).withBody stack2,
      ?_, ?_, ?_⟩
    · simp [analyzeLoopedStack, hy, tsClear, hstack]
    · rw [withBody_entryState, withExit_entryState, withEntry_entryState]
    · rw [withBody_exitState, withExit_exitState]

/-- Witness for C6: the theorem applied to the concrete non-yielding while
loop with body `set x to "s"` from the empty state, and to a concrete
yielding loop with an empty body from a one-entry state. -/
theorem c6_witness :
    (∃ fuel,
      (analyzeLoopedStack (.mk [varSetStrBlock]) [] whileDemo fuel).isSome = true) ∧
    (∃ b', analyzeLoopedStack (.mk []) [("y", 1)]
          (.mk (.controlWhile (.mk [])) true none none) (2+1) =
        some (b', [], false || (tsClear [("y", 1)]).2) ∧
      b'.entryState = some [] ∧ b'.exitState = some []) :=
  ⟨c6_loop_fixed_point_terminates.1 (.mk [varSetStrBlock]) [] whileDemo rfl
    (by decide) KeysNodup_nil tsBounded_nil,
   c6_loop_fixed_point_terminates.2 (.mk []) [("y", 1)]
    (.mk (.controlWhile (.mk [])) true none none) 2 (.mk []) [] false rfl rfl⟩

end ScratchVM

namespace ScratchVM

/-- C1: the claim states that `toType` with target NUMBER_OR_NAN keeps a
NaN-coercing constant literal as NaN. The source shares one switch case for
CAST_NUMBER and CAST_NUMBER_OR_NAN, so the constant `"abc"`, whose numeric
coercion is NaN, is folded to the literal 0 — not NaN. -/
theorem c1_counterexample :
    IInput.toType (.constant InputType.STRING (.str "abc")) InputType.NUMBER_OR_NAN =
      .ok (.constant InputType.NUMBER (.num (.finite ⟨0, 0⟩))) ∧
    JSNum.finite ⟨0, 0⟩ ≠ JSNum.nan := by
  constructor
  · rfl
  · intro h; cases h

/-- C1 (amended): for both numeric cast targets, the compile-time constant
fold stores 0 for a NaN-coercing literal and preserves a literal coercing
to negative zero; the folded node is typed NUMBER. -/
theorem c1_amended :
    (∀ (v : JSValue) (ty target : Nat),
      target = InputType.NUMBER ∨ target = InputType.NUMBER_OR_NAN →
      (IInput.constant ty v).isAlwaysType target = false →
      jsToNumber v = .nan →
      IInput.toType (.constant ty v) target =
        .ok (.constant InputType.NUMBER (.num (.finite ⟨0, 0⟩)))) ∧
    (∀ (v : JSValue) (ty target : Nat),
      target = InputType.NUMBER ∨ target = InputType.NUMBER_OR_NAN →
      (IInput.constant ty v).isAlwaysType target = false →
      jsToNumber v = .negZero →
      IInput.toType (.constant ty v) target =
        .ok (.constant InputType.NUMBER (.num .negZero))) := by
  constructor
  all_goals
    rintro v ty target (rfl | rfl) hA hN
  all_goals
    simp only [IInput.toType]
    rw [if_neg (by decide)]
    simp only [hA, Bool.false_eq_true, if_false]
    rw [if_neg (by decide), if_neg (by decide)]
    simp [hN, JSNum.truthy]

/-- C1 (witness): the amended statement applied to the concrete constants
`"abc"` (NaN-coercing) and `"-0"` (negative-zero-coercing). -/
theorem c1_amended_witness :
    IInput.toType (.constant InputType.STRING (.str "uh")) InputType.NUMBER_OR_NAN =
      .ok (.constant InputType.NUMBER (.num (.finite ⟨0, 0⟩))) ∧
    IInput.toType (.constant InputType.STRING (.str "-0")) InputType.NUMBER =
      .ok (.constant InputType.NUMBER (.num .negZero)) :=
  ⟨c1_amended.1 (.str "uh") InputType.STRING InputType.NUMBER_OR_NAN
      (Or.inr rfl) (by decide) (by decide),
   c1_amended.2 (.str "-0") InputType.STRING InputType.NUMBER
      (Or.inl rfl) (by decide) (by decide)⟩

/-- C2: the claim states the OP_DIVIDE transfer on constant 1 over constant
0 excludes the NAN bit. The transfer's `REAL / 0 = NaN` rule fires for any
possibly-real dividend, so the NAN bit is present. -/
theorem c2_counterexample :
    analyzeInputBlock divideOneByZero [] &&& InputType.NUMBER_NAN ≠ 0 := by decide

/-- C2 (amended): the OP_DIVIDE transfer on `1 / 0` (constants typed by
`getNumberInputType`) returns exactly POS_INF together with NAN: POS_INF
from the `Infinity / 0` rule (the coarse constant type NUMBER_POS includes
POS_INF), NAN from the `REAL / 0` rule, which is not restricted to a 0
dividend. -/
theorem c2_amended :
    analyzeInputBlock divideOneByZero [] =
      InputType.NUMBER_POS_INF ||| InputType.NUMBER_NAN := by decide

/-- C3: the claim states `getNumberInputType` types `-0` as NEG_ZERO. The
source returns NUMBER_ZERO for `-0` (`-0 < 0` is false in JavaScript, so the
final fallthrough is reached). -/
theorem c3_counterexample :
    getNumberInputType JSNum.negZero = InputType.NUMBER_ZERO ∧
    InputType.NUMBER_ZERO ≠ InputType.NUMBER_NEG_ZERO := by decide

/-- C3 (amended): `getNumberInputType` is coarse: NaN maps to NAN, the
infinities to POS_INF and NEG_INF, both zeroes to ZERO, and any other
finite number to the whole POS or NEG group — no NEG_ZERO and no
integral-versus-fractional distinction. -/
theorem c3_amended :
    ∀ n : JSNum,
      getNumberInputType n =
        match n with
        | .nan => InputType.NUMBER_NAN
        | .posInf => InputType.NUMBER_POS_INF
        | .negInf => InputType.NUMBER_NEG_INF
        | .negZero => InputType.NUMBER_ZERO
        | .finite d =>
          if d.m < 0 then InputType.NUMBER_NEG
          else if 0 < d.m then InputType.NUMBER_POS
          else InputType.NUMBER_ZERO := by
  intro n
  cases n with
  | nan => decide
  | posInf => decide
  | negInf => decide
  | negZero => decide
  | finite d =>
    simp only [getNumberInputType, JSNum.lt, JSNum.dval, JSNum.isNaN, Dec.blt,
      reduceCtorEq, if_false]
    rcases lt_trichotomy d.m 0 with h | h | h
    · simp [h, not_lt.mpr (le_of_lt h)]
    · simp [h]
    · simp [h, not_lt.mpr (le_of_lt h), lt_irrefl]

/-- C4: the claim (and the spec) state the IF_ELSE analysis always joins
the true-branch clone back with `state.or(clone)`. The source evaluates
`modified ||= state.or(trueState)`, and `||=` short-circuits: when the
false branch already changed the state the join is skipped. On an IF_ELSE
whose true branch sets `x` to a string and whose false branch sets `x` to
the number 1, the post-block state maps `x` to NUMBER_POS only, while the
join required by the claim would map `x` to NUMBER_POS with STRING. -/
theorem c4_if_else_join_skipped :
    (analyzeStackBlock ifElseDemo [] 50).map (fun r => (r.2.1, r.2.2)) =
      some ([("x", InputType.NUMBER_POS)], true) ∧
    tsOr [("x", InputType.NUMBER_POS)] [("x", InputType.STRING)] =
      ([("x", InputType.NUMBER_POS ||| InputType.STRING)], true) ∧
    InputType.NUMBER_POS ||| InputType.STRING ≠ InputType.NUMBER_POS := by
  refine ⟨?_, by decide, by decide⟩
  rfl

/-- C9: the claim states every visited stack block records an `exitState`
annotation, including non-yielding loop blocks. Analyzing a stack holding
one non-yielding WHILE whose body sets `x` to a string mutates the state
(`x` becomes ANY), yet the loop block receives no `exitState`: the loop's
returned changed-flag is the final, always-false `or` result, so the
annotation branch of `analyzeStack` never runs. -/
theorem c9_counterexample :
    (analyzeStack (Stack.mk [whileDemo]) [] 50).map
        (fun r => (r.1.blocks.map StackBlock.exitState, r.2.1, r.2.2)) =
      some ([none], [("x", InputType.ANY)], false) := by
  rfl

/-- C9 (amended): a visited block's `exitState` is written only when the
visit reports a state change: in that case a fresh annotation is the
current state and an existing annotation is joined with `or`; when the
visit reports no change the block (and its annotation) is returned exactly
as `analyzeStackBlock` produced it. -/
theorem c9_amended :
    ∀ blk state fuel b1 s1 ch b' s' ch2,
      analyzeStackBlock blk state fuel = some (b1, s1, ch) →
      visitBlock blk state (fuel + 1) = some (b', s', ch2) →
      (ch2 = true →
        b'.exitState = some (match b1.exitState with
          | some e => (tsOr e s').1
          | none => s')) ∧
      (ch2 = false → b' = b1 ∧ b'.exitState = b1.exitState) := by
  intro blk state fuel b1 s1 ch b' s' ch2 h1 h2
  rw [visitBlock, h1] at h2
  simp only [Option.bind_eq_bind, Option.some_bind] at h2
  rcases hsc : (if b1.yields then if ch then (s1, true) else tsClear s1 else (s1, ch)) with ⟨s2, m2⟩
  rw [hsc] at h2
  by_cases hm : m2
  · subst hm
    rw [if_pos rfl] at h2
    rcases hx : b1.exitState with _ | e <;> rw [hx] at h2 <;>
      injection h2 with h2 <;>
      injection h2 with hb hrest <;>
      injection hrest with hs hchh <;>
      subst hb <;> subst hs <;> subst hchh
    · refine ⟨fun _ => ?_, fun hcon => Bool.noConfusion hcon⟩
      cases b1
      simp_all [StackBlock.withExit, StackBlock.exitState]
    · refine ⟨fun _ => ?_, fun hcon => Bool.noConfusion hcon⟩
      cases b1
      simp_all [StackBlock.withExit, StackBlock.exitState]
  · simp only [Bool.not_eq_true] at hm
    subst hm
    rw [if_neg (by simp)] at h2
    injection h2 with h2
    injection h2 with hb hrest
    injection hrest with hs hchh
    subst hb; subst hs; subst hchh
    exact ⟨fun hcon => Bool.noConfusion hcon, fun _ => ⟨rfl, rfl⟩⟩

/-- C9 (witness): the amended statement applied to a concrete VAR_SET block
whose visit changes the state, checking the freshly recorded annotation. -/
theorem c9_amended_witness :
    (StackBlock.mk (.varSet "x" constStrInput) false none
        (some [("x", InputType.STRING)])).exitState =
      some (match (StackBlock.mk (.varSet "x" constStrInput) false none
          none).exitState with
        | some e => (tsOr e [("x", InputType.STRING)]).1
        | none => [("x", InputType.STRING)]) :=
  (c9_amended varSetStrBlock [] 5 varSetStrBlock [("x", InputType.STRING)] true
      (StackBlock.mk (.varSet "x" constStrInput) false none
        (some [("x", InputType.STRING)]))
      [("x", InputType.STRING)] true rfl rfl).1 rfl

/-- C10: an input whose `type` field is the empty bitset is always-T for
every T (the subset test is vacuous), never sometimes-T (the intersection
test is empty), and `toType` returns it unchanged for all four supported
targets, because the always-type early return fires. -/
theorem c10_empty_type_behavior :
    ∀ i : IInput, i.type = 0 →
      (∀ T : Nat, i.isAlwaysType T = true) ∧
      (∀ T : Nat, i.isSometimesType T = false) ∧
      i.toType InputType.BOOLEAN = .ok i ∧
      i.toType InputType.NUMBER = .ok i ∧
      i.toType InputType.NUMBER_OR_NAN = .ok i ∧
      i.toType InputType.STRING = .ok i := by
  intro i h
  have hA : ∀ T : Nat, i.isAlwaysType T = true := by
    intro T
    simp [IInput.isAlwaysType, h, Nat.zero_and]
  refine ⟨hA, ?_, ?_, ?_, ?_, ?_⟩
  · intro T
    simp [IInput.isSometimesType, h, Nat.zero_and]
  all_goals
    simp [IInput.toType, hA, InputType.BOOLEAN, InputType.NUMBER,
      InputType.NUMBER_OR_NAN, InputType.STRING]

/-- C10 (witness): the statement applied to a concrete empty-typed
constant. -/
theorem c10_witness :
    ((IInput.constant 0 (.str "e")).isAlwaysType InputType.NUMBER = true) ∧
    ((IInput.constant 0 (.str "e")).isSometimesType InputType.NUMBER = false) ∧
    (IInput.constant 0 (.str "e")).toType InputType.NUMBER =
      .ok (IInput.constant 0 (.str "e")) :=
  ⟨(c10_empty_type_behavior (.constant 0 (.str "e")) rfl).1 InputType.NUMBER,
   (c10_empty_type_behavior (.constant 0 (.str "e")) rfl).2.1 InputType.NUMBER,
   (c10_empty_type_behavior (.constant 0 (.str "e")) rfl).2.2.2.1⟩


/-- C7: the claim states every code-generator path that appends a yield to
a script whose yields flag is false raises a compile-time error. The
ADDON_CALL lowering appends `yield* executeInCompatibilityLayer(...)`
without any check of the flag: on a non-yielding script it succeeds and the
yield* text is in the emitted source. -/
theorem c7_counterexample :
    descendStackedBlock [] nonYieldingGen addonDemoBlock =
      .ok { nonYieldingGen with source :=
        "yield* executeInCompatibilityLayer(\x7b\x7d, runtime.getAddonBlock(\"c\").callback, false, false, \"b\");\n" } ∧
    nonYieldingGen.scriptYields = false := by
  exact ⟨rfl, rfl⟩

/-- C7 (amended): on a script whose yields flag is false, the yield paths
that run `yielded()` raise a compile-time error — `yieldNotWarp` outside
warp mode, `yieldStuckOrNotWarp` always, EVENT_BROADCAST_AND_WAIT, and a
PROCEDURE_CALL of a yielding callee — but `retire()` inside a procedure
appends `retire(); yield;` and the COMPATIBILITY_LAYER and ADDON_CALL
lowerings append their `yield*` calls without raising. -/
theorem c7_amended :
    (∀ g : JSGenState, g.scriptYields = false → g.isWarp = false →
      g.yieldNotWarp = .error "Script yielded but is not marked as yielding.") ∧
    (∀ g : JSGenState, g.scriptYields = false →
      g.yieldStuckOrNotWarp = .error "Script yielded but is not marked as yielding.") ∧
    (∀ (procs : List (String × ProcInfo)) (g : JSGenState) (b : IInput)
        (s : String) (y : Bool) (e x : Option TypeState),
      g.scriptYields = false → descendInput b = .ok s →
      descendStackedBlock procs g (.mk (.broadcastAndWait b) y e x) =
        .error "Script yielded but is not marked as yielding.") ∧
    (∀ (procs : List (String × ProcInfo)) (g : JSGenState)
        (pr : String × ProcInfo) (y : Bool) (e x : Option TypeState)
        (code variant : String) (args : List IInput),
      procs.find? (fun p => p.1 = variant) = some pr →
      pr.2.stackNull = false → pr.2.yields = true → g.scriptYields = false →
      ∃ m, descendStackedBlock procs g
        (.mk (.procedureCall code variant args) y e x) = .error m) ∧
    (∀ g : JSGenState, g.isProcedure = true →
      g.retire = g.emit "retire(); yield;\n") ∧
    (∀ (procs : List (String × ProcInfo)) (g : JSGenState)
        (code blockId : String) (y : Bool) (e x : Option TypeState),
      descendStackedBlock procs g (.mk (.addonCall code blockId []) y e x) =
        .ok (g.emit ("yield* executeInCompatibilityLayer(" ++ "\x7b\x7d" ++ ", " ++
          ("runtime.getAddonBlock(\"" ++ sanitize code ++ "\").callback") ++ ", " ++
          boolStr g.isWarp ++ ", false, " ++ ("\"" ++ sanitize blockId ++ "\"") ++
          ");\n"))) ∧
    (∀ (procs : List (String × ProcInfo)) (g : JSGenState) (opcode : String)
        (y : Bool) (e x : Option TypeState),
      g.frames = [] →
      descendStackedBlock procs g (.mk (.compatCall opcode [] []) y e x) =
        .ok ((g.evaluateOnce ("runtime.getOpcodeFunction(\"" ++ sanitize opcode ++ "\")")).2.emit
          ("yield* executeInCompatibilityLayer(\x7b" ++ "\x7d, " ++
            (g.evaluateOnce ("runtime.getOpcodeFunction(\"" ++ sanitize opcode ++ "\")")).1 ++
            ", " ++ boolStr g.isWarp ++ ", " ++ boolStr false ++ ", null)" ++ ";\n"))) := by
  refine ⟨?_, ?_, ?_, ?_, ?_, ?_, ?_⟩
  · intro g hY hW
    simp [JSGenState.yieldNotWarp, JSGenState.yielded, JSGenState.emit, hY, hW]
  · intro g hY
    by_cases hW : g.isWarp <;>
      simp [JSGenState.yieldStuckOrNotWarp, JSGenState.yielded, JSGenState.emit, hY, hW]
  · intro procs g b s y e x hY hB
    simp [descendStackedBlock, StackBlock.op, hB, JSGenState.yielded,
      JSGenState.emit, hY, Bind.bind, Except.bind]
  · intro procs g pr y e x code variant args hF hS hPY hY
    simp only [descendStackedBlock, StackBlock.op, hF, hS, Bool.false_eq_true,
      if_false]
    by_cases hRec : g.isWarp = false ∧ code = g.scriptProcedureCode
    · refine ⟨"Script yielded but is not marked as yielding.", ?_⟩
      simp [hRec.1, hRec.2, JSGenState.yieldNotWarp, JSGenState.yielded,
        JSGenState.emit, hY, Bind.bind, Except.bind, Pure.pure, Except.pure]
    · refine ⟨"Script uses yielding procedure but is not marked as yielding.", ?_⟩
      simp [hRec, hPY, JSGenState.emit, hY, Bind.bind, Except.bind, Pure.pure,
        Except.pure]
  · intro g hP
    simp [JSGenState.retire, hP]
  · intro procs g code blockId y e x
    rfl
  · intro procs g opcode y e x hF
    simp only [descendStackedBlock, StackBlock.op, JSGenState.isLastBlockInLoop, hF,
      JSGenState.isLastBlockInLoop.go, generateCompatibilityLayerCall,
      JSGenState.emit, Bind.bind, Except.bind, Pure.pure, Except.pure]
    rfl

/-- C7 (witness): the amended statement applied to concrete generator
states: the plain yield raises on a non-yielding script, and retire inside
a procedure appends its yield text without raising. -/
theorem c7_amended_witness :
    nonYieldingGen.yieldNotWarp =
      .error "Script yielded but is not marked as yielding." ∧
    procGen.retire = procGen.emit "retire(); yield;\n" ∧
    descendStackedBlock [] nonYieldingGen broadcastDemoBlock =
      .error "Script yielded but is not marked as yielding." :=
  ⟨c7_amended.1 nonYieldingGen rfl rfl,
   c7_amended.2.2.2.2.1 procGen rfl,
   c7_amended.2.2.1 [] nonYieldingGen (.constant InputType.STRING (.str "m"))
     "\"m\"" false none none rfl rfl⟩

/-- C8: the claim states the EQ safe-constant test is exactly the
round-trip criterion. The current `isSafeInputForEqualsOptimization`
accepts the STRING_NUM constant `"010"`, whose numeric coercion 10 does not
stringify back to `"010"`. -/
theorem c8_counterexample :
    isSafeInputForEqualsOptimization unsafeConstant = true ∧
    jsNumToString (jsToNumber (.str "010")) ≠ "010" := by decide

/-- C8 (amended): the older revision's `isSafeConstantForEqualsOptimization`
is exactly the stricter criterion — truthy numeric coercion and stringified
round-trip equal to the original constant's string form — while the current
`isSafeInputForEqualsOptimization` on a constant only requires the type to
be always NUMBER or always STRING_NUM and the coercion to be strictly
non-zero, with no round-trip requirement. -/
theorem c8_amended :
    (∀ v : JSValue,
      isSafeConstantForEqualsOptimization v =
        ((jsToNumber v).truthy &&
          (jsNumToString (jsToNumber v) == jsValueToString v))) ∧
    (∀ (ty : Nat) (v : JSValue),
      isSafeInputForEqualsOptimization (.constant ty v) =
        (((IInput.constant ty v).isAlwaysType InputType.NUMBER ||
            (IInput.constant ty v).isAlwaysType InputType.STRING_NUM) &&
          !(jsToNumber v).strictEqZero)) := by
  constructor
  · intro v
    simp only [isSafeConstantForEqualsOptimization]
    by_cases h : (jsToNumber v).truthy
    · simp [h]
    · simp only [Bool.not_eq_true] at h
      simp [h]
  · intro ty v
    simp only [isSafeInputForEqualsOptimization]
    by_cases h : ((IInput.constant ty v).isAlwaysType InputType.NUMBER ||
        (IInput.constant ty v).isAlwaysType InputType.STRING_NUM)
    · simp [h]
    · simp only [Bool.not_eq_true] at h
      simp [h]

/-- The rewriter on an `other` node: the generic child loop specializes to
a plain map over the children, and the type update is the identity. -/
theorem optimizeInput_other (ty : Nat) (children : List IInput) (s : TypeState) :
    optimizeInput (.other ty children) s =
      .other ty (children.map (fun c => optimizeInput c s)) := by
  rw [optimizeInput]
  simp [List.attach_map_val, IInput.setType, analyzeInputBlock, IInput.type]

/-- The rewriter on a CAST_BOOLEAN node only recurses and re-writes the
unchanged type. -/
theorem optimizeInput_castBoolean (ty : Nat) (t : IInput) (s : TypeState) :
    optimizeInput (.castBoolean ty t) s = .castBoolean ty (optimizeInput t s) := by
  rw [optimizeInput]
  simp [IInput.setType, analyzeInputBlock, IInput.type]

/-- The rewriter on a CAST_STRING node only recurses and re-writes the
unchanged type. -/
theorem optimizeInput_castString (ty : Nat) (t : IInput) (s : TypeState) :
    optimizeInput (.castString ty t) s = .castString ty (optimizeInput t s) := by
  rw [optimizeInput]
  simp [IInput.setType, analyzeInputBlock, IInput.type]

/-- The rewriter on OP_ADD: children rewritten, type set to the analyzed
type. -/
theorem optimizeInput_opAdd (ty : Nat) (l r : IInput) (s : TypeState) :
    optimizeInput (.opAdd ty l r) s =
      .opAdd (analyzeInputBlock (.opAdd ty (optimizeInput l s) (optimizeInput r s)) s)
        (optimizeInput l s) (optimizeInput r s) := by
  rw [optimizeInput]
  simp only [IInput.setType]

/-- The rewriter on OP_SUBTRACT. -/
theorem optimizeInput_opSubtract (ty : Nat) (l r : IInput) (s : TypeState) :
    optimizeInput (.opSubtract ty l r) s =
      .opSubtract (analyzeInputBlock (.opSubtract ty (optimizeInput l s) (optimizeInput r s)) s)
        (optimizeInput l s) (optimizeInput r s) := by
  rw [optimizeInput]
  simp only [IInput.setType]

/-- The rewriter on OP_MULTIPLY. -/
theorem optimizeInput_opMultiply (ty : Nat) (l r : IInput) (s : TypeState) :
    optimizeInput (.opMultiply ty l r) s =
      .opMultiply (analyzeInputBlock (.opMultiply ty (optimizeInput l s) (optimizeInput r s)) s)
        (optimizeInput l s) (optimizeInput r s) := by
  rw [optimizeInput]
  simp only [IInput.setType]

/-- The rewriter on OP_DIVIDE. -/
theorem optimizeInput_opDivide (ty : Nat) (l r : IInput) (s : TypeState) :
    optimizeInput (.opDivide ty l r) s =
      .opDivide (analyzeInputBlock (.opDivide ty (optimizeInput l s) (optimizeInput r s)) s)
        (optimizeInput l s) (optimizeInput r s) := by
  rw [optimizeInput]
  simp only [IInput.setType]

/-- The rewriter is idempotent: a second pass with the same state returns
the first pass's tree unchanged. -/
theorem optimizeInput_idem (s : TypeState) :
    ∀ (i : IInput), optimizeInput (optimizeInput i s) s = optimizeInput i s := by
  have H : ∀ (n : Nat) (i : IInput), sizeOf i ≤ n →
      optimizeInput (optimizeInput i s) s = optimizeInput i s := by
    intro n
    induction n with
    | zero =>
      intro i hi
      exact absurd hi (by cases i <;> simp)
    | succ n ih =>
      intro i hi
      match i with
      | .constant ty v =>
        simp [optimizeInput, IInput.setType, analyzeInputBlock, IInput.type]
      | .varGet ty nm =>
        simp [optimizeInput, IInput.setType, analyzeInputBlock, IInput.type]
      | .castNumber ty target =>
        have ht : sizeOf target ≤ n := by simp at hi; omega
        rw [optimizeInput]
        by_cases hc : (analyzeInputBlock (optimizeInput target s) s &&& InputType.NUMBER) =
            analyzeInputBlock (optimizeInput target s) s
        · rw [if_pos hc]
          exact ih target ht
        · rw [if_neg hc]
          rw [optimizeInput]
          rw [ih target ht]
          rw [if_neg hc]
      | .castNumberOrNan ty target =>
        have ht : sizeOf target ≤ n := by simp at hi; omega
        rw [optimizeInput]
        by_cases hc : (analyzeInputBlock (optimizeInput target s) s &&& InputType.NUMBER_OR_NAN) =
            analyzeInputBlock (optimizeInput target s) s
        · rw [if_pos hc]
          exact ih target ht
        · rw [if_neg hc]
          rw [optimizeInput]
          rw [ih target ht]
          rw [if_neg hc]
      | .castBoolean ty target =>
        have ht : sizeOf target ≤ n := by simp at hi; omega
        rw [optimizeInput_castBoolean, optimizeInput_castBoolean, ih target ht]
      | .castString ty target =>
        have ht : sizeOf target ≤ n := by simp at hi; omega
        rw [optimizeInput_castString, optimizeInput_castString, ih target ht]
      | .opAdd ty l r =>
        have hl : sizeOf l ≤ n := by simp at hi; omega
        have hr : sizeOf r ≤ n := by simp at hi; omega
        rw [optimizeInput_opAdd, optimizeInput_opAdd, ih l hl, ih r hr]
        exact rfl
      | .opSubtract ty l r =>
        have hl : sizeOf l ≤ n := by simp at hi; omega
        have hr : sizeOf r ≤ n := by simp at hi; omega
        rw [optimizeInput_opSubtract, optimizeInput_opSubtract, ih l hl, ih r hr]
        exact rfl
      | .opMultiply ty l r =>
        have hl : sizeOf l ≤ n := by simp at hi; omega
        have hr : sizeOf r ≤ n := by simp at hi; omega
        rw [optimizeInput_opMultiply, optimizeInput_opMultiply, ih l hl, ih r hr]
        exact rfl
      | .opDivide ty l r =>
        have hl : sizeOf l ≤ n := by simp at hi; omega
        have hr : sizeOf r ≤ n := by simp at hi; omega
        rw [optimizeInput_opDivide, optimizeInput_opDivide, ih l hl, ih r hr]
        exact rfl
      | .other ty children =>
        rw [optimizeInput_other, optimizeInput_other]
        rw [List.map_map]
        congr 1
        apply List.map_congr_left
        intro c hc
        have hcs : sizeOf c ≤ n := by
          have h2 := List.sizeOf_lt_of_mem hc
          simp at hi
          omega
        exact ih c hcs
  intro i
  exact H (sizeOf i) i (le_refl _)

/-- C5: for a CAST_NUMBER or CAST_NUMBER_OR_NAN node the rewriter first
optimizes the target, then drops the cast exactly when the analyzed type of
the optimized target is a bitwise subset of the cast target type, returning
the target in the cast's place, and otherwise keeps the cast around the
optimized target; and the rewriter is idempotent — a second pass over any
result is the identity. -/
theorem c5_cast_elimination_idempotent :
    (∀ (x : IInput) (s : TypeState) (ty : Nat),
      optimizeInput (.castNumber ty x) s =
        if (analyzeInputBlock (optimizeInput x s) s &&& InputType.NUMBER) =
            analyzeInputBlock (optimizeInput x s) s
        then optimizeInput x s
        else .castNumber ty (optimizeInput x s)) ∧
    (∀ (x : IInput) (s : TypeState) (ty : Nat),
      optimizeInput (.castNumberOrNan ty x) s =
        if (analyzeInputBlock (optimizeInput x s) s &&& InputType.NUMBER_OR_NAN) =
            analyzeInputBlock (optimizeInput x s) s
        then optimizeInput x s
        else .castNumberOrNan ty (optimizeInput x s)) ∧
    (∀ (i : IInput) (s : TypeState),
      optimizeInput (optimizeInput i s) s = optimizeInput i s) := by
  refine ⟨?_, ?_, ?_⟩
  · intro x s ty
    rw [optimizeInput]
  · intro x s ty
    rw [optimizeInput]
  · intro i s
    exact optimizeInput_idem s i

end ScratchVM
